import Mathlib

/-!
# xropen: a shallow embedding of the transfer coordinator

The definitions below follow `xropen-server.c` (the coordinator), `common.c`
(`copy_string_prop`, `set_property_string`) and the size publication of
`xropen.c` (`create_window`).

Conventions of the embedding:

* C strings are `List Char` (the bytes before the terminating NUL); a `char *`
  that may be `NULL` is an `Option (List Char)`.
* `off_t` is a signed 64-bit integer: an `Int` reduced by `off_t_wrap`.
* `all_clients` is the whole static array of `MAX_CLIENTS` entries, entries at
  or above `all_clients_size` keep whatever was last stored in them.
* The embedding tracks the values of the fields, not the validity of the heap
  objects they point at (`free` has no effect on the model). The release of a
  stale pointer, undefined in C, is therefore not detected; see `close_client`.
* The display is seen through the replies it gives (`Env.get_property`) and
  through the log of the state-changing requests the coordinator issues.
* A function that dereferences a `NULL` pointer returns `Fault.null_pointer`;
  a loop that has not finished when the fuel runs out returns
  `Fault.fuel_exhausted`.
-/

namespace Xropen

/-! ## Constants -/

def MAX_CLIENTS : Nat := 16

def MAX_DATA_SIZE : Nat := 16 * 1024 * 1024

def MAX_FILE_BASENAME : Nat := 80

def MAX_FILE_EXT : Nat := 16

def MAX_FILE_INDEX : Nat := 100

/-- The value of `FILENAME_MAX` in the C library headers (glibc). -/
def FILENAME_MAX : Nat := 4096

/-- Predefined atom `INTEGER` of the X protocol. -/
def XCB_ATOM_INTEGER : Nat := 19

/-- Predefined atom `STRING` of the X protocol. -/
def XCB_ATOM_STRING : Nat := 31

def XCB_PROPERTY_NEW_VALUE : Nat := 0

def XCB_PROPERTY_DELETE : Nat := 1

/-- The event mask `XCB_EVENT_MASK_PROPERTY_CHANGE | XCB_EVENT_MASK_STRUCTURE_NOTIFY`. -/
def CLIENT_EVENT_MASK : Nat := 4194304 + 131072

/-- The static `temp_dir` of the server. -/
def temp_dir : List Char := "/tmp".toList

/-- Wrap an integer to the range of a signed 64-bit `off_t`. -/
def off_t_wrap (x : Int) : Int :=
  (x + 9223372036854775808) % 18446744073709551616 - 9223372036854775808

/-! ## Data model -/

/-- The interned atoms of `struct ropen_atoms`. -/
structure ropen_atoms where
  xropen : Nat
  timestamp : Nat
  data : Nat
  file_name : Nat
  content_type : Nat
  size : Nat
  error : Nat
deriving DecidableEq, Repr

/-- The coordinator's `struct xropen_client`; `file` is the stream, identified by
the inode it writes to. -/
structure xropen_client where
  window : Nat
  file_name : Option (List Char)
  file_type : Option (List Char)
  file_size : Int
  file_pos : Int
  file : Option Nat
  last_activity : Nat
deriving DecidableEq, Repr

instance : Inhabited xropen_client :=
  ⟨⟨0, none, none, 0, 0, none, 0⟩⟩

/-- A file system: directory entries (path, inode number) and the contents of
every inode, indexed by inode number. -/
structure FileSys where
  dir : List (List Char × Nat)
  inodes : List (List Nat)
deriving DecidableEq, Repr

/-- The string handed to `set_property_string` by `kill_non_client`: a literal of
the source, or `strerror(errno)` when the caller passed `NULL`. -/
inductive Message where
  | literal (s : String)
  | strerror_errno
deriving DecidableEq, Repr

/-- The state-changing X requests issued by the coordinator. -/
inductive XRequest where
  | change_property_string (window property : Nat) (str : Message)
  | change_window_attributes (window events : Nat)
  | delete_property (window property : Nat)
  | flush
deriving DecidableEq, Repr

/-- The reply to `xcb_get_property`: `value` holds the returned items in units of
`format` bits, `value_len` is their number. -/
structure PropReply where
  type : Nat
  format : Nat
  bytes_after : Nat
  value : List Nat
deriving DecidableEq, Repr

def PropReply.value_len (r : PropReply) : Nat := r.value.length

/-- The broken-down local time used by `open_temp_file`. -/
structure Tm where
  tm_year : Nat
  tm_mon : Nat
  tm_mday : Nat
  tm_hour : Nat
  tm_min : Nat
  tm_sec : Nat
deriving DecidableEq, Repr

/-- What the environment answers during one event: the display replies
(`get_property window property type long_length`, `none` for a `NULL` reply),
the clock, the lines of `/etc/mime.types` as `fgets` returns them (`none` when
the file cannot be opened), whether `fdopen` succeeds, how many bytes `fwrite`
can take, and the return values of the three `posix_spawn` calls. -/
structure Env where
  get_property : Nat → Nat → Nat → Nat → Option PropReply
  tm : Tm
  now : Nat
  mime_types : Option (List (List Char))
  fdopen_ok : Bool
  fwrite_max : Nat
  spawnattr_init_ret : Int
  spawnattr_setpgroup_ret : Int
  spawn_ret : Int

/-- The coordinator's global state with the part of the world it acts on:
the client array and its size, the file system, the log of X requests, and the
log of `open_file` invocations (file name and type handed to the command). -/
structure World where
  all_clients : List xropen_client
  all_clients_size : Nat
  fs : FileSys
  requests : List XRequest
  launches : List (Option (List Char) × Option (List Char))
deriving DecidableEq, Repr

inductive Fault where
  | null_pointer
  | fuel_exhausted
deriving DecidableEq, Repr

/-! ## File system primitives -/

/-- `stat(path)`: the inode of the path, if it exists. -/
def FileSys.stat (fs : FileSys) (path : List Char) : Option Nat :=
  fs.dir.lookup path

/-- `open(path, O_WRONLY | O_CREAT | O_EXCL, 0666)`: fails exactly when the path
exists, otherwise creates an empty file and returns its descriptor (inode). -/
def FileSys.open_excl (fs : FileSys) (path : List Char) : Option (FileSys × Nat) :=
  match fs.stat path with
  | some _ => none
  | none => some (⟨fs.dir ++ [(path, fs.inodes.length)], fs.inodes ++ [[]]⟩, fs.inodes.length)

/-- Append bytes to the file of an inode. -/
def FileSys.append (fs : FileSys) (ino : Nat) (bytes : List Nat) : FileSys :=
  { fs with inodes := fs.inodes.set ino (fs.inodes.getD ino [] ++ bytes) }

/-- `unlink(path)`. -/
def FileSys.unlink (fs : FileSys) (path : List Char) : FileSys :=
  { fs with dir := fs.dir.filter (fun e => e.1 != path) }

/-- The contents of the file at a path. -/
def FileSys.read (fs : FileSys) (path : List Char) : Option (List Nat) :=
  match fs.stat path with
  | some ino => fs.inodes.get? ino
  | none => none

/-! ## Client table -/

def World.client (w : World) (c : Nat) : xropen_client :=
  w.all_clients.getD c default

def World.set_client (w : World) (c : Nat) (cl : xropen_client) : World :=
  { w with all_clients := w.all_clients.set c cl }

/-- The active slots: the first `all_clients_size` entries of the array. -/
def World.active (w : World) : List xropen_client :=
  w.all_clients.take w.all_clients_size

/-- `remove_if_same(name, f)`: unlink `name` when it still names the inode of the
stream. -/
def remove_if_same (fs : FileSys) (name : Option (List Char)) (f : Nat) : FileSys :=
  match name with
  | none => fs
  | some n =>
    match fs.stat n with
    | none => fs
    | some ino => if ino ≠ f then fs else fs.unlink n

/-- The loop `while (client < all_clients + all_clients_size) client[0] = client[1];`
of `close_client`, with `c` the index of `client` and `n` the decremented size. -/
def close_client_loop : Nat → List xropen_client → Nat → Nat → Option (List xropen_client)
  | 0, _, _, _ => none
  | fuel + 1, arr, c, n =>
    if c < n then close_client_loop fuel (arr.set c (arr.getD (c + 1) default)) c n
    else some arr

/-- `close_client(client)` for the client at index `c`.

`fclose(client->file)`, `free(client->file_name)` and `free(client->file_type)`
release objects of the heap, which the embedding does not hold: the definition
gives the effect of the function on the table and on the file system, which is
the effect of the code when each released pointer is `NULL` or points at a live
object. The array entry keeps the three pointers after the call; a slot that
`start_client` takes again holds them stale until they are stored anew, and
releasing a stale pointer a second time is undefined in C. -/
def close_client (fuel : Nat) (w : World) (c : Nat) : Except Fault World :=
  let client := w.client c
  let fs := match client.file with
    | some f => remove_if_same w.fs client.file_name f
    | none => w.fs
  let n := if w.all_clients_size = 0 then 4294967295 else w.all_clients_size - 1
  match close_client_loop fuel w.all_clients c n with
  | none => .error .fuel_exhausted
  | some arr => .ok { w with all_clients := arr, all_clients_size := n, fs := fs }

/-- `kill_non_client(window, msg)`. -/
def kill_non_client (atom : ropen_atoms) (w : World) (window : Nat) (msg : Option String) :
    World :=
  let str := match msg with
    | some s => Message.literal s
    | none => Message.strerror_errno
  { w with requests := w.requests ++ [.change_property_string window atom.error str] }

/-- `kill_client(client, msg)` for the client at index `c`. -/
def kill_client (fuel : Nat) (atom : ropen_atoms) (w : World) (c : Nat) (msg : Option String) :
    Except Fault World :=
  close_client fuel (kill_non_client atom w (w.client c).window msg) c

/-! ## Temp file allocator -/

def NUL : Char := Char.ofNat 0

/-- `isspace` in the C locale. -/
def isspace (c : Char) : Bool :=
  c.toNat == 32 || (decide (9 ≤ c.toNat) && decide (c.toNat ≤ 13))

/-- `tolower` in the C locale. -/
def tolower (c : Char) : Char :=
  if 65 ≤ c.toNat ∧ c.toNat ≤ 90 then Char.ofNat (c.toNat + 32) else c

/-- `get_next_word(&cur, end, &rlen)`: the next word and the rest of the line
after it, `none` for `NULL`. -/
def get_next_word (cur : List Char) : Option (List Char × List Char) :=
  let s := cur.dropWhile isspace
  match s with
  | [] => none
  | _ :: _ => some (s.takeWhile (fun ch => !isspace ch), s.dropWhile (fun ch => !isspace ch))

/-- `memcasecmp(a, b, len)`; a read past the end of a string reads its NUL. -/
def memcasecmp : List Char → List Char → Nat → Nat
  | _, _, 0 => 0
  | a, b, len + 1 =>
    if tolower (a.headD NUL) != tolower (b.headD NUL) then 1
    else memcasecmp a.tail b.tail len

/-- The inner loop of `check_file_extension` over the extensions of one line of
the MIME table; the result is `rext`, the offset of `name_end` and whether it
left through `goto finished`. Every iteration consumes at least one character of
the line, the fuel is the number of characters left plus one. -/
def check_file_extension_words (name : List Char) :
    Nat → List Char → List Char → Nat → List Char × Nat × Bool
  | 0, _, rext, name_end => (rext, name_end, false)
  | fuel + 1, cur, rext, name_end =>
    match get_next_word cur with
    | none => (rext, name_end, false)
    | some (mext, rest) =>
      let mext_len := mext.length
      if mext_len > MAX_FILE_EXT then check_file_extension_words name fuel rest rext name_end
      else
        let name_len := name.length
        let is_match : Bool :=
          decide (name_len ≥ mext_len + 2) &&
          name.getD (name_len - mext_len - 1) NUL == '.' &&
          memcasecmp (name.drop (name_len - mext_len)) mext mext_len == 0
        let rext1 := if rext.isEmpty || is_match then '.' :: mext else rext
        if is_match then (rext1, name_len - mext_len - 1, true)
        else check_file_extension_words name fuel rest rext1 name_end

/-- The loop of `check_file_extension` over the lines of the MIME table. -/
def check_file_extension_lines (name type : List Char) :
    List (List Char) → List Char → Nat → List Char × Nat
  | [], rext, name_end => (rext, name_end)
  | line :: lines, rext, name_end =>
    match get_next_word line with
    | none => check_file_extension_lines name type lines rext name_end
    | some (mtype, cur) =>
      if mtype.headD NUL == '#' || type.length != mtype.length ||
          memcasecmp type mtype type.length != 0 then
        check_file_extension_lines name type lines rext name_end
      else
        match check_file_extension_words name (cur.length + 1) cur rext name_end with
        | (rext1, name_end1, true) => (rext1, name_end1)
        | (rext1, name_end1, false) => check_file_extension_lines name type lines rext1 name_end1

/-- `check_file_extension(name, type, rext, &name_end)`: returns `rext` and the
offset of `name_end` in `name`. `strlen(name)` faults on a `NULL` name. -/
def check_file_extension (mime_types : Option (List (List Char)))
    (name type : Option (List Char)) : Except Fault (List Char × Nat) :=
  match name with
  | none => .error .null_pointer
  | some name =>
    match type with
    | none => .ok ([], name.length)
    | some type =>
      match mime_types with
      | none => .ok ([], name.length)
      | some lines => .ok (check_file_extension_lines name type lines [] name.length)

def is_safe_char (c : Char) : Bool :=
  (decide ((c.toNat ||| 32) ≥ 97) && decide ((c.toNat ||| 32) ≤ 122)) ||
  (decide (c.toNat ≥ 48) && decide (c.toNat ≤ 57)) || c == '_' || c == '-' || c == '.'

/-- The decimal digits of a number, most significant first. -/
def decimal_digits : Nat → Nat → List Char → List Char
  | 0, _, acc => acc
  | fuel + 1, n, acc =>
    if n / 10 = 0 then Char.ofNat (48 + n % 10) :: acc
    else decimal_digits fuel (n / 10) (Char.ofNat (48 + n % 10) :: acc)

/-- The conversion `%0<width>d` of `snprintf` for a non-negative number. -/
def fmt_d (width n : Nat) : List Char :=
  let s := decimal_digits (n + 1) n []
  List.replicate (width - s.length) '0' ++ s

/-- The beginning of the temp file path, up to the two index characters:
`temp_dir`, `/` and the output of `snprintf` before `XX-`. -/
def temp_file_head (tm : Tm) : List Char :=
  temp_dir ++ ['/'] ++ "xropen-".toList ++
    fmt_d 4 (tm.tm_year + 1900) ++ fmt_d 2 (tm.tm_mon + 1) ++ fmt_d 2 tm.tm_mday ++ ['-'] ++
    fmt_d 2 tm.tm_hour ++ fmt_d 2 tm.tm_min ++ fmt_d 2 tm.tm_sec ++ ['-']

/-- The contents of `filename` in iteration `i` of the loop of `open_temp_file`. -/
def temp_file_name (tm : Tm) (base ext : List Char) (i : Nat) : List Char :=
  temp_file_head tm ++ [Char.ofNat (48 + i / 10), Char.ofNat (48 + i % 10)] ++ ['-'] ++
    base ++ ext

/-- The base name written by `open_temp_file`: the characters of `name` before
`name_end`, unsafe ones replaced. -/
def temp_file_base (name : List Char) (name_end : Nat) : List Char :=
  (name.take name_end).map (fun p => if is_safe_char p then p else '_')

/-- The loop `for (i = 0; i < MAX_FILE_INDEX; i++)` of `open_temp_file` with `k`
iterations left: the file system after the successful `open`, the descriptor
and the index, or `none` when every `open` failed. -/
def open_temp_file_loop (fs : FileSys) (filename : Nat → List Char) :
    Nat → Nat → Option (FileSys × Nat × Nat)
  | 0, _ => none
  | k + 1, i =>
    match fs.open_excl (filename i) with
    | some (fs1, fd) => some (fs1, fd, i)
    | none => open_temp_file_loop fs filename k (i + 1)

/-- `open_temp_file(client, name, type)` for the client at index `c`. -/
def open_temp_file (fuel : Nat) (atom : ropen_atoms) (env : Env) (w : World) (c : Nat)
    (name type : Option (List Char)) : Except Fault World :=
  match check_file_extension env.mime_types name type with
  | .error e => .error e
  | .ok (ext, name_end0) =>
    let name_end := if name_end0 > MAX_FILE_BASENAME then MAX_FILE_BASENAME else name_end0
    let base := temp_file_base (name.getD []) name_end
    match open_temp_file_loop w.fs (temp_file_name env.tm base ext) MAX_FILE_INDEX 0 with
    | none => kill_client fuel atom w c none
    | some (fs1, fd, i) =>
      let file := if env.fdopen_ok then some fd else none
      let w1 := { w with fs := fs1 }
      let w2 := w1.set_client c
        { w1.client c with file_name := some (temp_file_name env.tm base ext i), file := file }
      match file with
      | none => kill_client fuel atom w2 c none
      | some _ => .ok w2

/-! ## Property replies -/

/-- The `k` bytes of an item in host (little-endian) order. -/
def le_bytes (k x : Nat) : List Nat :=
  (List.range k).map (fun i => x / 256 ^ i % 256)

/-- The bytes of the value of a reply as they lie in memory. -/
def PropReply.raw_bytes (r : PropReply) : List Nat :=
  if r.format = 8 then r.value else (r.value.map (le_bytes (r.format / 8))).flatten

/-- The C string held by a zero-terminated buffer. -/
def c_string (bytes : List Nat) : List Char :=
  (bytes.map Char.ofNat).takeWhile (fun ch => ch != NUL)

/-- `copy_string_prop(prop)` of `common.c`: `NULL` for a `NULL` reply or format 0,
else a zero-terminated copy of the first `value_len` bytes of the value. -/
def copy_string_prop (prop : Option PropReply) : Option (List Char) :=
  match prop with
  | none => none
  | some p => if p.format = 0 then none else some (c_string (p.raw_bytes.take p.value_len))

/-- A property as the X server stores it on a window: type, format and the items
in units of `format` bits. -/
structure Property where
  type : Nat
  format : Nat
  data : List Nat
deriving DecidableEq, Repr

/-- The reply of the X server to `GetProperty` with `delete = 0`, offset 0 and the
given requested type and length in 32-bit words (X protocol): an absent property
gives type 0 and format 0; a property of another type gives its type and format,
no value and its whole length as `bytes_after`; otherwise the first
`4 * long_length` bytes are returned and `bytes_after` counts the rest. -/
def x_get_property (p : Option Property) (type long_length : Nat) : PropReply :=
  match p with
  | none => ⟨0, 0, 0, []⟩
  | some p =>
    let unit := p.format / 8
    if type ≠ 0 ∧ p.type ≠ type then ⟨p.type, p.format, p.data.length * unit, []⟩
    else
      let len := min (p.data.length * unit) (4 * long_length)
      ⟨p.type, p.format, p.data.length * unit - len, p.data.take (len / unit)⟩

/-- The words of the `SIZE` property published by `create_window` of the driver
(`xropen.c`): `size[0]`, then `size[1]` when it is not zero. -/
def create_window_size (file_size : Int) : List Nat :=
  let u := (file_size % 18446744073709551616).toNat
  let size0 := u % 4294967296
  let size1 := u / 4294967296 % 4294967296
  if size1 ≠ 0 then [size0, size1] else [size0]

/-! ## Coordinator -/

/-- The three validation tests of `start_client` (lines 303 to 313): `true` when
none of them jumps to `fail`. The second test reads `prop_type->format` once
`prop_name` is not `NULL`. -/
def start_client_checks (prop_name prop_type prop_size : Option PropReply) : Except Fault Bool :=
  match prop_size with
  | none => .ok false
  | some ps =>
    if ps.type ≠ XCB_ATOM_INTEGER ∨ ps.format ≠ 32 ∨ ps.value_len < 1 ∨ ps.value_len > 2 then
      .ok false
    else
      let name_test : Except Fault Bool :=
        match prop_name with
        | none => .ok false
        | some pn =>
          match prop_type with
          | none => .error .null_pointer
          | some pt =>
            .ok (decide (pt.format ≠ 0) &&
              (decide (pn.type ≠ XCB_ATOM_STRING) || decide (pn.format ≠ 8)))
      match name_test with
      | .error e => .error e
      | .ok true => .ok false
      | .ok false =>
        match prop_type with
        | none => .ok true
        | some pt =>
          if pt.format ≠ 0 ∧ (pt.type ≠ XCB_ATOM_STRING ∨ pt.format ≠ 8) then .ok false
          else .ok true

/-- The size decoded by `start_client` from the value of the `SIZE` reply. -/
def start_client_size (prop_size : PropReply) : Int :=
  let size : Int := ((prop_size.value.getD 0 0 % 4294967296 : Nat) : Int)
  if prop_size.value_len > 1 then
    off_t_wrap (size +
      off_t_wrap (((prop_size.value.getD 1 0 % 4294967296 : Nat) : Int) * 4294967296))
  else size

/-- `start_client(window)`. -/
def start_client (fuel : Nat) (atom : ropen_atoms) (env : Env) (w : World) (window : Nat) :
    Except Fault World :=
  if w.all_clients_size = MAX_CLIENTS then
    .ok (kill_non_client atom w window (some "too many clients"))
  else
    let c := w.all_clients_size
    let w0 : World := { w with all_clients_size := if c = 4294967295 then 0 else c + 1 }
    let w1 := w0.set_client c { w0.client c with window := window }
    let prop_name := env.get_property window atom.file_name XCB_ATOM_STRING FILENAME_MAX
    let prop_type := env.get_property window atom.content_type XCB_ATOM_STRING FILENAME_MAX
    let prop_size := env.get_property window atom.size XCB_ATOM_INTEGER 2
    match start_client_checks prop_name prop_type prop_size with
    | .error e => .error e
    | .ok false => .ok w1
    | .ok true =>
      let size := start_client_size (prop_size.getD ⟨0, 0, 0, []⟩)
      let name := copy_string_prop prop_name
      let type := copy_string_prop prop_type
      match open_temp_file fuel atom env w1 c name type with
      | .error e => .error e
      | .ok w2 =>
        let w3 : World := { w2 with requests := w2.requests ++
          [.change_window_attributes (w2.client c).window CLIENT_EVENT_MASK,
           .delete_property (w2.client c).window atom.data, .flush] }
        .ok (w3.set_client c { w3.client c with
          file_type := type, file_size := size, file_pos := 0, last_activity := env.now })

/-- `open_file(client)` for the client at index `c`. -/
def open_file (fuel : Nat) (atom : ropen_atoms) (env : Env) (w : World) (c : Nat) :
    Except Fault World :=
  let client := w.client c
  match client.file with
  | none => .error .null_pointer
  | some _ =>
    let w0 : World := { w with launches := w.launches ++ [(client.file_name, client.file_type)] }
    let w1 := w0.set_client c { client with file := none }
    if env.spawnattr_init_ret < 0 then
      kill_client fuel atom w1 c (some "posix_spawnattr_init")
    else if env.spawnattr_setpgroup_ret < 0 then
      kill_client fuel atom w1 c (some "posix_spawnattr_setpgroup")
    else if env.spawn_ret < 0 then
      kill_client fuel atom w1 c (some "posix_spawn")
    else close_client fuel w1 c

/-- The loop of `find_client` with `k` iterations left, from index `i`. -/
def find_client_loop (w : World) (window : Nat) : Nat → Nat → Option Nat
  | 0, _ => none
  | k + 1, i => if (w.client i).window = window then some i else find_client_loop w window k (i + 1)

/-- `find_client(window)`: the index of the first active slot with that window. -/
def find_client (w : World) (window : Nat) : Option Nat :=
  find_client_loop w window w.all_clients_size 0

structure xcb_property_notify_event_t where
  window : Nat
  atom : Nat
  state : Nat
deriving DecidableEq, Repr

/-- `handle_property_change(ev)` of the coordinator. -/
def handle_property_change (fuel : Nat) (atom : ropen_atoms) (env : Env) (w : World)
    (ev : xcb_property_notify_event_t) : Except Fault World :=
  if ev.atom ≠ atom.data ∨ ev.state ≠ XCB_PROPERTY_NEW_VALUE then .ok w
  else
    match find_client w ev.window with
    | none => .ok w
    | some c =>
      let client := w.client c
      let miss := off_t_wrap (client.file_size - client.file_pos)
      if miss ≤ 0 then kill_client fuel atom w c (some "invalid data packet")
      else
        let miss1 : Int := if miss > (MAX_DATA_SIZE : Int) then (MAX_DATA_SIZE : Int) else miss
        let miss2 := ((miss1 + 3) / 4).toNat
        match env.get_property client.window atom.data atom.data miss2 with
        | none => kill_client fuel atom w c (some "invalid data property")
        | some prop =>
          if prop.type ≠ atom.data ∨ prop.format ≠ 8 ∨ prop.bytes_after > 0 then
            kill_client fuel atom w c (some "invalid data property")
          else
            let size := prop.value_len
            match client.file with
            | none => .error .null_pointer
            | some f =>
              let written := min size env.fwrite_max
              let w1 : World := { w with fs := w.fs.append f (prop.value.take written) }
              if written ≠ size then kill_client fuel atom w1 c none
              else
                let w2 : World := { w1 with requests := w1.requests ++
                  [.delete_property client.window atom.data, .flush] }
                let pos := off_t_wrap (client.file_pos + (size : Int))
                let w3 := w2.set_client c { client with file_pos := pos }
                if pos = client.file_size then open_file fuel atom env w3 c else .ok w3

/-- `handle_destroy(ev)` for the destroyed window. -/
def handle_destroy (fuel : Nat) (w : World) (window : Nat) : Except Fault World :=
  match find_client w window with
  | none => .ok w
  | some c => close_client fuel w c

/-- The path that `open_temp_file` tries in iteration `i` for a name and a type. -/
def temp_file_path (env : Env) (name : List Char) (type : Option (List Char)) (i : Nat) :
    List Char :=
  match check_file_extension env.mime_types (some name) type with
  | .error _ => []
  | .ok (ext, name_end0) =>
    temp_file_name env.tm
      (temp_file_base name
        (if name_end0 > MAX_FILE_BASENAME then MAX_FILE_BASENAME else name_end0)) ext i

/-- The test that `start_client` makes on the `SIZE` reply: `INTEGER` type, 32-bit
format, one or two words. -/
def size_ok (ps : PropReply) : Prop :=
  ps.type = XCB_ATOM_INTEGER ∧ ps.format = 32 ∧ 1 ≤ ps.value_len ∧ ps.value_len ≤ 2

instance (ps : PropReply) : Decidable (size_ok ps) := by
  unfold size_ok
  infer_instance

/-! ## Runs of the coordinator -/

/-- The chunk-arrival event of a window: its `DATA` property has a new value. -/
def chunk_event (atom : ropen_atoms) (window : Nat) : xcb_property_notify_event_t :=
  ⟨window, atom.data, XCB_PROPERTY_NEW_VALUE⟩

/-- The environment of a chunk arrival in which the peer has published `chunk` as
the `DATA` property (type `DATA`, 8-bit format) of `window` and `fwrite` can take
the whole chunk. -/
def delivers (atom : ropen_atoms) (window : Nat) (env : Env) (chunk : List Nat) : Prop :=
  (∀ long_length, env.get_property window atom.data atom.data long_length =
    some (x_get_property (some ⟨atom.data, 8, chunk⟩) atom.data long_length)) ∧
  chunk.length ≤ env.fwrite_max

/-- `handle_property_change` once per chunk arrival on `window`, in order, each
arrival with its environment. -/
def handle_chunks (fuel : Nat) (atom : ropen_atoms) (window : Nat) :
    World → List Env → Except Fault World
  | w, [] => .ok w
  | w, env :: envs =>
    match handle_property_change fuel atom env w (chunk_event atom window) with
    | .error e => .error e
    | .ok w1 => handle_chunks fuel atom window w1 envs

/-- `start_client` for the announcement of `window`, then `handle_property_change`
once per chunk arrival. -/
def transfer (fuel : Nat) (atom : ropen_atoms) (window : Nat) (env : Env) (envs : List Env)
    (w : World) : Except Fault World :=
  match start_client fuel atom env w window with
  | .error e => .error e
  | .ok w1 => handle_chunks fuel atom window w1 envs

/-- The table holds only the transfer of `window`: slot 0 writes to the stream `f`
of the file at `path`, has received `pos` of `size` bytes, and the file holds
`content`. -/
def receiving (w : World) (window : Nat) (path : List Char) (type : Option (List Char))
    (size : Int) (f pos : Nat) (content : List Nat) : Prop :=
  w.all_clients_size = 1 ∧ 0 < w.all_clients.length ∧
  (w.client 0).window = window ∧ (w.client 0).file_name = some path ∧
  (w.client 0).file_type = type ∧ (w.client 0).file_size = size ∧
  (w.client 0).file_pos = (pos : Int) ∧ (w.client 0).file = some f ∧
  w.fs.stat path = some f ∧ w.fs.inodes.get? f = some content

/-! ## Concrete inputs -/

def atom0 : ropen_atoms := ⟨300, 301, 302, 303, 304, 305, 306⟩

def tm0 : Tm := ⟨124, 0, 5, 7, 8, 9⟩

/-- An environment whose display answers every request with a `NULL` reply. -/
def env_alloc : Env := ⟨fun _ _ _ _ => none, tm0, 1000, none, true, 0, 0, 0, 0⟩

/-- One active client and a file system where the path of index 00 for the name
`a/b?c` exists. -/
def w_alloc : World :=
  ⟨⟨77, none, none, 0, 0, none, 0⟩ :: List.replicate 15 default, 1,
    ⟨[("/tmp/xropen-20240105-070809-00-a_b_c".toList, 0)], [[]]⟩, [], []⟩

/-- The environment `env_alloc` with an `fdopen` that returns `NULL`. -/
def env_fdopen_fails : Env := { env_alloc with fdopen_ok := false }

/-- One active client in an entry never used before (all pointers `NULL`) and a
file system where the paths of all 100 indices for the name `a/b?c` exist, each
with an inode of its own. -/
def w_exhausted : World :=
  ⟨⟨77, none, none, 0, 0, none, 0⟩ :: List.replicate 15 default, 1,
    ⟨(List.range MAX_FILE_INDEX).map
        (fun i => (temp_file_path env_alloc "a/b?c".toList none i, i)),
      List.replicate MAX_FILE_INDEX []⟩, [], []⟩

/-- The display of a peer window with the given `FILE-NAME`, `CONTENT-TYPE`, `SIZE`
and `DATA` properties, for the atoms `atom0`. -/
def display0 (name type size data : Option Property) :
    Nat → Nat → Nat → Nat → Option PropReply :=
  fun _ property ty long_length =>
    if property = atom0.file_name then some (x_get_property name ty long_length)
    else if property = atom0.content_type then some (x_get_property type ty long_length)
    else if property = atom0.size then some (x_get_property size ty long_length)
    else if property = atom0.data then some (x_get_property data ty long_length)
    else none

/-- A string property. -/
def string_property (s : String) : Property :=
  ⟨XCB_ATOM_STRING, 8, s.toList.map Char.toNat⟩

/-- An environment with the display `display0`, no MIME table, and no failing
system call. -/
def env0 (name type size data : Option Property) : Env :=
  ⟨display0 name type size data, tm0, 1000, none, true, 1000000, 0, 0, 0⟩

/-- The empty table on an empty file system. -/
def w_empty : World :=
  ⟨List.replicate 16 default, 0, ⟨[], []⟩, [], []⟩

/-- A full table: 16 active clients with the windows 1 to 16. -/
def w_full : World :=
  ⟨(List.range 16).map (fun i => ⟨i + 1, none, none, 10, 0, none, 0⟩), 16, ⟨[], []⟩, [], []⟩

/-- A table with the two active clients 7 and 8. -/
def two_slots : World :=
  ⟨[⟨7, none, none, 0, 0, none, 0⟩, ⟨8, none, none, 0, 0, none, 0⟩] ++ List.replicate 14 default,
    2, ⟨[], []⟩, [], []⟩

/-- One active client for window 77 that still misses one byte of its file. -/
def w_one_byte : World :=
  ⟨⟨77, some "/tmp/f".toList, none, 1, 0, some 0, 0⟩ :: List.replicate 15 default, 1,
    ⟨[("/tmp/f".toList, 0)], [[]]⟩, [], []⟩

/-- A chunk of `MAX_DATA_SIZE + 1` bytes. -/
def big_chunk : List Nat := List.replicate 16777217 0

/-- The announcement of a file named `report` of `MAX_DATA_SIZE + 1` bytes. -/
def env_announce_big : Env :=
  env0 (some (string_property "report")) none (some ⟨XCB_ATOM_INTEGER, 32, [16777217]⟩) none

/-- The arrival of `big_chunk` as the `DATA` property; `fwrite` can take it whole. -/
def env_big : Env :=
  ⟨display0 none none none (some ⟨atom0.data, 8, big_chunk⟩), tm0, 2000, none, true,
    33554432, 0, 0, 0⟩

/-- The announcement of a file named `report` of three bytes. -/
def env_announce_three : Env :=
  env0 (some (string_property "report")) none (some ⟨XCB_ATOM_INTEGER, 32, [3]⟩) none

/-- The three bytes 1, 2, 5 delivered as the chunks `[1, 2]` and `[5]`. -/
def steps_three : List (Env × List Nat) :=
  [(env0 none none none (some ⟨atom0.data, 8, [1, 2]⟩), [1, 2]),
   (env0 none none none (some ⟨atom0.data, 8, [5]⟩), [5])]

/-! ## Base names and extensions -/

/-- The character class `[A-Za-z0-9._-]` of the specification, by character code. -/
def in_safe_class (c : Char) : Bool :=
  (decide (65 ≤ c.toNat) && decide (c.toNat ≤ 90)) ||
  (decide (97 ≤ c.toNat) && decide (c.toNat ≤ 122)) ||
  (decide (48 ≤ c.toNat) && decide (c.toNat ≤ 57)) ||
  c == '.' || c == '_' || c == '-'

/-- The base name in the words of the specification: the first `min(length, 80)`
characters of the name, each kept when it is in `[A-Za-z0-9._-]` and replaced by
`_` otherwise. -/
def sanitized_base (name : List Char) : List Char :=
  (name.take (min name.length 80)).map (fun ch => if in_safe_class ch then ch else '_')

/-- The words of a line from `cur` on, as successive calls of `get_next_word` return
them. -/
def line_words : Nat → List Char → List (List Char)
  | 0, _ => []
  | fuel + 1, cur =>
    match get_next_word cur with
    | none => []
    | some (word, rest) => word :: line_words fuel rest

/-- The ordered list of extensions that the MIME table maps a type to, as
`check_file_extension` reads it: the words after the first one on every line
whose first word does not begin with `#` and equals the type, compared
case-insensitively; lines in order. -/
def table_extensions (type : List Char) : List (List Char) → List (List Char)
  | [] => []
  | line :: lines =>
    match get_next_word line with
    | none => table_extensions type lines
    | some (mtype, cur) =>
      if mtype.headD NUL == '#' || type.length != mtype.length ||
          memcasecmp type mtype type.length != 0 then
        table_extensions type lines
      else line_words (cur.length + 1) cur ++ table_extensions type lines

/-- The inner loop of `check_file_extension` run over a list of extensions. -/
def extension_scan (name : List Char) :
    List (List Char) → List Char → Nat → List Char × Nat × Bool
  | [], rext, name_end => (rext, name_end, false)
  | mext :: rest, rext, name_end =>
    if mext.length > MAX_FILE_EXT then extension_scan name rest rext name_end
    else
      let is_match : Bool :=
        decide (name.length ≥ mext.length + 2) &&
        name.getD (name.length - mext.length - 1) NUL == '.' &&
        memcasecmp (name.drop (name.length - mext.length)) mext mext.length == 0
      let rext1 := if rext.isEmpty || is_match then '.' :: mext else rext
      if is_match then (rext1, name.length - mext.length - 1, true)
      else extension_scan name rest rext1 name_end

/-- The name has at least one character before its last `1 + length e` characters,
and these are `.` followed by `e`, compared case-insensitively. -/
def ends_with_extension (name e : List Char) : Bool :=
  decide (e.length + 2 ≤ name.length) &&
  (name.drop (name.length - (e.length + 1))).map tolower == ('.' :: e).map tolower

/-- Extension derivation in the words of the specification, over the listed
extensions of at most `MAX_FILE_EXT` characters: the first one that the name
ends with is the extension and its suffix is stripped from the name; without
one the first listed extension is appended to the whole name; without any
listed extension the extension is empty. The result is the extension and the
length of the base name. -/
def extension_spec (exts : List (List Char)) (name : List Char) : List Char × Nat :=
  let usable := exts.filter (fun e => decide (e.length ≤ MAX_FILE_EXT))
  match usable.find? (ends_with_extension name) with
  | some e => ('.' :: e, name.length - (e.length + 1))
  | none =>
    match usable.head? with
    | some e => ('.' :: e, name.length)
    | none => ([], name.length)
/-- A MIME table with a comment line and the line mapping `text/plain` to
`txt asc`. -/
def mime_text_plain : List (List Char) :=
  ["# MIME type  Extensions\n".toList, "text/plain\t\t\ttxt asc\n".toList]

/-- A MIME table whose first extension for `x/y` has 17 characters. -/
def mime_long_extension : List (List Char) :=
  ["x/y abcdefghijklmnopq txt\n".toList]

/-- Extension derivation as the claim words it, over all listed extensions: the
first one such that the name ends with `.` followed by it, compared
case-insensitively, is the extension and that suffix is stripped; without one
the first listed extension is appended to the whole name. -/
def extension_as_claimed (exts : List (List Char)) (name : List Char) : List Char × Nat :=
  match exts.find? (fun e => decide (e.length + 1 ≤ name.length) &&
      (name.drop (name.length - (e.length + 1))).map tolower == ('.' :: e).map tolower) with
  | some e => ('.' :: e, name.length - (e.length + 1))
  | none =>
    match exts.head? with
    | some e => ('.' :: e, name.length)
    | none => ([], name.length)

/-! ## Event sequences -/

/-- The events that the main loop of the coordinator dispatches: an announcement
(the client message that carries the peer window, handled by `start_client`), a
property notification and a destroy notification. -/
inductive Event where
  | announcement (env : Env) (window : Nat)
  | property_change (env : Env) (ev : xcb_property_notify_event_t)
  | destroy (window : Nat)

/-- The handler that the main loop calls for an event. -/
def handle_event (fuel : Nat) (atom : ropen_atoms) (w : World) : Event → Except Fault World
  | .announcement env window => start_client fuel atom env w window
  | .property_change env ev => handle_property_change fuel atom env w ev
  | .destroy window => handle_destroy fuel w window

/-- The main loop over a sequence of events. -/
def run_events (fuel : Nat) (atom : ropen_atoms) : World → List Event → Except Fault World
  | w, [] => .ok w
  | w, e :: es =>
    match handle_event fuel atom w e with
    | .error err => .error err
    | .ok w1 => run_events fuel atom w1 es

/-- Every announcement of the run names a window that has no active slot at the
time it is handled. -/
def fresh_announcements (fuel : Nat) (atom : ropen_atoms) : World → List Event → Bool
  | _, [] => true
  | w, e :: es =>
    (match e with
      | .announcement _ window => (find_client w window).isNone
      | _ => true) &&
    (match handle_event fuel atom w e with
      | .ok w1 => fresh_announcements fuel atom w1 es
      | .error _ => true)

/-- The two worlds have arrays of the same length that hold the same window in
every entry. -/
def same_windows (w w1 : World) : Prop :=
  w1.all_clients.length = w.all_clients.length ∧
  ∀ i, (w1.client i).window = (w.client i).window

/-- No two active slots hold the same window. -/
def unique_windows (w : World) : Prop :=
  ∀ i j, i < w.all_clients_size → j < w.all_clients_size →
    (w.client i).window = (w.client j).window → i = j
/-- Two valid announcements, from the windows 77 and 78. -/
def events_two_windows : List Event :=
  [.announcement env_announce_three 77, .announcement env_announce_three 78]

/-- Two valid announcements that both name window 77. -/
def events_same_window : List Event :=
  [.announcement env_announce_three 77, .announcement env_announce_three 77]

/-! ## Theorems -/

/-! ### Slot removal -/

theorem close_client_loop_stuck (fuel : Nat) (arr : List xropen_client) (c n : Nat)
    (h : c < n) : close_client_loop fuel arr c n = none := by
  induction fuel generalizing arr with
  | zero => rfl
  | succ k ih => simp [close_client_loop, h, ih]

theorem close_client_loop_done (fuel : Nat) (arr : List xropen_client) (c n : Nat)
    (h : ¬ c < n) : close_client_loop (fuel + 1) arr c n = some arr := by
  simp [close_client_loop, h]

theorem take_succ_eraseIdx {α : Type} (l : List α) (c : Nat) :
    (l.take (c + 1)).eraseIdx c = l.take c := by
  induction l generalizing c with
  | nil => simp
  | cons a t ih =>
    cases c with
    | zero => simp
    | succ k => simp [List.take_succ_cons, ih]

/-- The world left by `close_client` on the last active slot. -/
theorem close_client_last (fuel : Nat) (w : World) (c : Nat)
    (hc : c + 1 = w.all_clients_size) :
    close_client (fuel + 1) w c = .ok { w with
      all_clients_size := c,
      fs := match (w.client c).file with
        | some f => remove_if_same w.fs (w.client c).file_name f
        | none => w.fs } := by
  have h0 : w.all_clients_size ≠ 0 := by omega
  have hc2 : w.all_clients_size - 1 = c := by omega
  have hlt : ¬ c < c := by omega
  simp only [close_client, h0, if_false, hc2, close_client_loop_done fuel _ c c hlt]


/-- C3: `close_client` on a slot that is not the last active one never returns: the
loop copies `client[1]` to `client[0]` without advancing `client`, so no fuel
suffices. -/
theorem close_client_not_last_never_returns (fuel : Nat) (w : World) (c : Nat)
    (hc : c + 1 < w.all_clients_size) :
    close_client fuel w c = .error .fuel_exhausted := by
  have h0 : w.all_clients_size ≠ 0 := by omega
  have hlt : c < w.all_clients_size - 1 := by omega
  simp only [close_client, h0, if_false, close_client_loop_stuck fuel _ c _ hlt]

theorem close_client_not_last_never_returns_witness :
    0 + 1 < two_slots.all_clients_size ∧
    close_client 1000 two_slots 0 = .error .fuel_exhausted :=
  ⟨by decide, close_client_not_last_never_returns 1000 two_slots 0 (by decide)⟩

/-! ### Metadata validation -/

theorem size_ok_iff (ps : PropReply) :
    size_ok ps ↔ ¬ (ps.type ≠ XCB_ATOM_INTEGER ∨ ps.format ≠ 32 ∨ ps.value_len < 1 ∨
        ps.value_len > 2) := by
  unfold size_ok; omega

theorem start_client_checks_bad_size (pn pt : Option PropReply) (ps : PropReply)
    (hs : ¬ size_ok ps) : start_client_checks pn pt (some ps) = .ok false := by
  rw [size_ok_iff, not_not] at hs
  unfold start_client_checks
  simp only []
  rw [if_pos hs]

theorem start_client_checks_good_size (pn pt ps : PropReply) (hs : size_ok ps) :
    start_client_checks (some pn) (some pt) (some ps) = .ok (decide
      (pt.format = 0 ∨ (pn.type = XCB_ATOM_STRING ∧ pn.format = 8 ∧
        pt.type = XCB_ATOM_STRING ∧ pt.format = 8))) := by
  rw [size_ok_iff] at hs
  unfold start_client_checks
  simp only []
  rw [if_neg hs]
  by_cases h5 : pt.format = 0
  · simp [h5]
  · by_cases hn : pn.type = XCB_ATOM_STRING
    · by_cases hn8 : pn.format = 8
      · by_cases ht : pt.type = XCB_ATOM_STRING
        · by_cases ht8 : pt.format = 8
          · simp [h5, hn, hn8, ht, ht8]
          · simp [h5, hn, hn8, ht, ht8]
        · simp [h5, hn, hn8, ht]
      · simp [h5, hn, hn8]
    · simp [h5, hn]

theorem start_client_checks_spec (pn pt ps : PropReply) :
    start_client_checks (some pn) (some pt) (some ps) = .ok (decide (size_ok ps ∧
      (pt.format = 0 ∨ (pn.type = XCB_ATOM_STRING ∧ pn.format = 8 ∧
        pt.type = XCB_ATOM_STRING ∧ pt.format = 8)))) := by
  by_cases hs : size_ok ps
  · rw [start_client_checks_good_size pn pt ps hs]
    simp [hs]
  · rw [start_client_checks_bad_size _ _ ps hs]
    simp [hs]


/-! ### Temp file allocation -/

theorem check_file_extension_some (mime : Option (List (List Char))) (name : List Char)
    (type : Option (List Char)) :
    ∃ r, check_file_extension mime (some name) type = .ok r := by
  unfold check_file_extension
  cases type with
  | none => exact ⟨_, rfl⟩
  | some t =>
    cases mime with
    | none => exact ⟨_, rfl⟩
    | some lines => exact ⟨_, rfl⟩

theorem open_temp_file_some (fuel : Nat) (atom : ropen_atoms) (env : Env) (w : World) (c : Nat)
    (name : List Char) (type : Option (List Char)) :
    open_temp_file fuel atom env w c (some name) type =
      match open_temp_file_loop w.fs (temp_file_path env name type) MAX_FILE_INDEX 0 with
      | none => kill_client fuel atom w c none
      | some (fs1, fd, i) =>
        if env.fdopen_ok then
          .ok (({ w with fs := fs1 } : World).set_client c
            { ({ w with fs := fs1 } : World).client c with
              file_name := some (temp_file_path env name type i), file := some fd })
        else
          kill_client fuel atom (({ w with fs := fs1 } : World).set_client c
            { ({ w with fs := fs1 } : World).client c with
              file_name := some (temp_file_path env name type i), file := none }) c none := by
  obtain ⟨⟨ext, name_end⟩, hr⟩ := check_file_extension_some env.mime_types name type
  unfold open_temp_file temp_file_path
  simp only [hr, Option.getD]
  cases env.fdopen_ok <;> rfl

theorem open_temp_file_loop_none (fs : FileSys) (f : Nat → List Char) (k i : Nat)
    (h : ∀ j, i ≤ j → j < i + k → fs.stat (f j) ≠ none) :
    open_temp_file_loop fs f k i = none := by
  induction k generalizing i with
  | zero => rfl
  | succ n ih =>
    have h0 := h i (le_refl i) (by omega)
    obtain ⟨ino, hino⟩ := Option.ne_none_iff_exists'.mp h0
    simp only [open_temp_file_loop, FileSys.open_excl, hino]
    exact ih (i + 1) (fun j h1 h2 => h j (by omega) (by omega))

theorem open_temp_file_loop_least (fs : FileSys) (f : Nat → List Char) (k i m : Nat)
    (h1 : i ≤ m) (h2 : m < i + k) (hfree : fs.stat (f m) = none)
    (h : ∀ j, i ≤ j → j < m → fs.stat (f j) ≠ none) :
    open_temp_file_loop fs f k i =
      some (⟨fs.dir ++ [(f m, fs.inodes.length)], fs.inodes ++ [[]]⟩, fs.inodes.length, m) := by
  induction k generalizing i with
  | zero => omega
  | succ n ih =>
    by_cases him : i = m
    · subst him
      simp only [open_temp_file_loop, FileSys.open_excl, hfree]
    · have h0 := h i (le_refl i) (by omega)
      obtain ⟨ino, hino⟩ := Option.ne_none_iff_exists'.mp h0
      simp only [open_temp_file_loop, FileSys.open_excl, hino]
      exact ih (i + 1) (by omega) (by omega) (fun j h1 h2 => h j (by omega) h2)

theorem kill_client_last (fuel : Nat) (atom : ropen_atoms) (w : World) (c : Nat)
    (msg : Option String) (hc : c + 1 = w.all_clients_size) :
    kill_client (fuel + 1) atom w c msg = .ok { w with
      all_clients_size := c,
      requests := w.requests ++ [.change_property_string (w.client c).window atom.error
        (match msg with
          | some s => Message.literal s
          | none => Message.strerror_errno)],
      fs := match (w.client c).file with
        | some f => remove_if_same w.fs (w.client c).file_name f
        | none => w.fs } := by
  unfold kill_client
  rw [close_client_last fuel _ c (by simpa [kill_non_client] using hc)]
  rfl

theorem remove_if_same_inodes (fs : FileSys) (name : Option (List Char)) (f : Nat) :
    (remove_if_same fs name f).inodes = fs.inodes := by
  unfold remove_if_same
  cases name with
  | none => rfl
  | some n =>
    simp only []
    cases fs.stat n with
    | none => rfl
    | some ino =>
      simp only []
      split <;> rfl

theorem remove_if_same_dir (fs : FileSys) (name : Option (List Char)) (f : Nat) :
    (remove_if_same fs name f).dir.Sublist fs.dir := by
  unfold remove_if_same
  cases name with
  | none => exact List.Sublist.refl _
  | some n =>
    simp only []
    cases fs.stat n with
    | none => exact List.Sublist.refl _
    | some ino =>
      simp only []
      split
      · exact List.Sublist.refl _
      · exact List.filter_sublist _

theorem temp_file_path_zero_ne_one (env : Env) (name : List Char) (type : Option (List Char)) :
    temp_file_path env name type 0 ≠ temp_file_path env name type 1 := by
  obtain ⟨⟨ext, name_end⟩, hr⟩ := check_file_extension_some env.mime_types name type
  unfold temp_file_path
  simp only [hr, temp_file_name, List.append_assoc]
  intro h
  have h1 := List.append_cancel_left h
  simp only [List.cons_append, List.nil_append, List.cons.injEq] at h1
  exact absurd h1.2.1 (by decide)

theorem stat_open_excl_same (fs : FileSys) (p : List Char) (ino : Nat)
    (h : fs.stat p = none) :
    FileSys.stat ⟨fs.dir ++ [(p, ino)], fs.inodes ++ [[]]⟩ p = some ino := by
  unfold FileSys.stat at *
  simp only [List.lookup_append, h, Option.none_or]
  simp [List.lookup]

theorem stat_open_excl_other (fs : FileSys) (p q : List Char) (ino : Nat)
    (h : q ≠ p) :
    FileSys.stat ⟨fs.dir ++ [(p, ino)], fs.inodes ++ [[]]⟩ q = fs.stat q := by
  unfold FileSys.stat at *
  simp only [List.lookup_append]
  have hb : (q == p) = false := by simpa using h
  have : List.lookup q [(p, ino)] = none := by simp [List.lookup, hb]
  rw [this]
  simp


theorem open_temp_file_free (fuel : Nat) (atom : ropen_atoms) (env : Env) (w : World) (c : Nat)
    (name : List Char) (type : Option (List Char)) (m : Nat) (hm : m < MAX_FILE_INDEX)
    (hfree : w.fs.stat (temp_file_path env name type m) = none)
    (hless : ∀ j, j < m → w.fs.stat (temp_file_path env name type j) ≠ none)
    (hfd : env.fdopen_ok = true) :
    open_temp_file fuel atom env w c (some name) type = .ok
      (({ w with fs := ⟨w.fs.dir ++ [(temp_file_path env name type m, w.fs.inodes.length)],
          w.fs.inodes ++ [[]]⟩ } : World).set_client c
        { w.client c with file_name := some (temp_file_path env name type m),
                          file := some w.fs.inodes.length }) := by
  rw [open_temp_file_some,
    open_temp_file_loop_least w.fs _ MAX_FILE_INDEX 0 m (Nat.zero_le m) (by omega) hfree
      (fun j _ h => hless j h)]
  simp only [hfd, if_true]
  rfl

theorem open_temp_file_exhausted (fuel : Nat) (atom : ropen_atoms) (env : Env) (w : World)
    (c : Nat) (name : List Char) (type : Option (List Char))
    (hall : ∀ j, j < MAX_FILE_INDEX → w.fs.stat (temp_file_path env name type j) ≠ none)
    (hc : c + 1 = w.all_clients_size) :
    open_temp_file (fuel + 1) atom env w c (some name) type = .ok { w with
      all_clients_size := c,
      requests := w.requests ++
        [.change_property_string (w.client c).window atom.error .strerror_errno],
      fs := match (w.client c).file with
        | some f => remove_if_same w.fs (w.client c).file_name f
        | none => w.fs } := by
  rw [open_temp_file_some,
    open_temp_file_loop_none w.fs _ MAX_FILE_INDEX 0 (fun j _ h => hall j (by omega))]
  exact kill_client_last fuel atom w c none hc


theorem client_set_client (w : World) (c : Nat) (cl : xropen_client)
    (h : c < w.all_clients.length) : (w.set_client c cl).client c = cl := by
  simp [World.set_client, World.client, List.getD_eq_getElem?_getD, h]

theorem w_exhausted_full (j : Nat) (h : j < MAX_FILE_INDEX) :
    w_exhausted.fs.stat (temp_file_path env_alloc "a/b?c".toList none j) ≠ none := by
  show List.lookup (temp_file_path env_alloc "a/b?c".toList none j)
    ((List.range MAX_FILE_INDEX).map
      (fun i => (temp_file_path env_alloc "a/b?c".toList none i, i))) ≠ none
  rw [Ne, List.lookup_eq_none_iff]
  intro hall
  have := hall (temp_file_path env_alloc "a/b?c".toList none j, j)
    (List.mem_map.2 ⟨j, List.mem_range.2 h, rfl⟩)
  simp at this

/-- C10 (amended): when `fdopen` succeeds, `open_temp_file` creates and stores in
the slot the path `temp_dir/xropen-<date>-<time>-<II>-<base><ext>` whose index is
the least one in 0..99 that does not exist yet, and creates no other path; two
allocations with the same name and time take the indices 00 and 01. When all
100 paths exist and the client is the last active slot, in an entry whose
`file_name`, `file_type` and `file` are `NULL`, it returns with the file system
unchanged, the `ERROR` property written and the slot removed. -/
theorem open_temp_file_index_selection (fuel : Nat) (atom : ropen_atoms) (env : Env)
    (w : World) (c : Nat) (name : List Char) (type : Option (List Char))
    (hlen : c < w.all_clients.length) :
    (env.fdopen_ok = true →
      ∀ m, m < MAX_FILE_INDEX → w.fs.stat (temp_file_path env name type m) = none →
      (∀ j, j < m → w.fs.stat (temp_file_path env name type j) ≠ none) →
      ∃ w1, open_temp_file fuel atom env w c (some name) type = .ok w1 ∧
        (w1.client c).file_name = some (temp_file_path env name type m) ∧
        (w1.client c).file = some w.fs.inodes.length ∧
        w1.fs.dir = w.fs.dir ++ [(temp_file_path env name type m, w.fs.inodes.length)] ∧
        w1.fs.inodes = w.fs.inodes ++ [[]] ∧
        w1.all_clients_size = w.all_clients_size ∧ w1.requests = w.requests) ∧
    (env.fdopen_ok = true →
      w.fs.stat (temp_file_path env name type 0) = none →
      w.fs.stat (temp_file_path env name type 1) = none →
      ∃ w1 w2, open_temp_file fuel atom env w c (some name) type = .ok w1 ∧
        (w1.client c).file_name = some (temp_file_path env name type 0) ∧
        open_temp_file fuel atom env w1 c (some name) type = .ok w2 ∧
        (w2.client c).file_name = some (temp_file_path env name type 1) ∧
        temp_file_path env name type 0 ≠ temp_file_path env name type 1 ∧
        w2.fs.dir = w.fs.dir ++ [(temp_file_path env name type 0, w.fs.inodes.length),
          (temp_file_path env name type 1, w.fs.inodes.length + 1)]) ∧
    ((∀ j, j < MAX_FILE_INDEX → w.fs.stat (temp_file_path env name type j) ≠ none) →
      0 < fuel → c + 1 = w.all_clients_size →
      (w.client c).file_name = none → (w.client c).file_type = none →
      (w.client c).file = none →
      open_temp_file fuel atom env w c (some name) type = .ok { w with
        all_clients_size := c,
        requests := w.requests ++
          [.change_property_string (w.client c).window atom.error .strerror_errno] }) ∧
    (∃ base ext, ∀ i, temp_file_path env name type i =
      temp_dir ++ ['/'] ++ "xropen-".toList ++
        fmt_d 4 (env.tm.tm_year + 1900) ++ fmt_d 2 (env.tm.tm_mon + 1) ++
        fmt_d 2 env.tm.tm_mday ++ ['-'] ++
        fmt_d 2 env.tm.tm_hour ++ fmt_d 2 env.tm.tm_min ++ fmt_d 2 env.tm.tm_sec ++ ['-'] ++
        [Char.ofNat (48 + i / 10), Char.ofNat (48 + i % 10)] ++ ['-'] ++ base ++ ext) := by
  refine ⟨?_, ?_, ?_, ?_⟩
  · intro hfd m hm hfree hless
    refine ⟨_, open_temp_file_free fuel atom env w c name type m hm hfree hless hfd, ?_, ?_,
      rfl, rfl, rfl, rfl⟩
    · rw [client_set_client]; exact hlen
    · rw [client_set_client]; exact hlen
  · intro hfd h0 h1
    have hne := temp_file_path_zero_ne_one env name type
    have e1 := open_temp_file_free fuel atom env w c name type 0 (by decide) h0
      (fun j hj => absurd hj (Nat.not_lt_zero j)) hfd
    have e2 := open_temp_file_free fuel atom env
      (({ w with fs := ⟨w.fs.dir ++ [(temp_file_path env name type 0, w.fs.inodes.length)],
          w.fs.inodes ++ [[]]⟩ } : World).set_client c
        { w.client c with file_name := some (temp_file_path env name type 0),
                          file := some w.fs.inodes.length }) c name type 1 (by decide)
      (by
        simp only [World.set_client]
        rw [stat_open_excl_other _ _ _ _ (Ne.symm hne)]
        exact h1)
      (by
        intro j hj
        have hj0 : j = 0 := by omega
        subst hj0
        simp only [World.set_client]
        rw [stat_open_excl_same _ _ _ h0]
        simp) hfd
    refine ⟨_, _, e1, ?_, e2, ?_, hne, ?_⟩
    · rw [client_set_client]; exact hlen
    · rw [client_set_client]
      simpa [World.set_client] using hlen
    · simp [World.set_client]
  · intro hall hfuel hc _ _ hfile
    obtain ⟨k, rfl⟩ : ∃ k, fuel = k + 1 := ⟨fuel - 1, by omega⟩
    rw [open_temp_file_exhausted k atom env w c name type hall hc, hfile]
  · obtain ⟨⟨ext, name_end⟩, hr⟩ := check_file_extension_some env.mime_types name type
    refine ⟨temp_file_base name
      (if name_end > MAX_FILE_BASENAME then MAX_FILE_BASENAME else name_end), ext, fun i => ?_⟩
    unfold temp_file_path
    simp only [hr, temp_file_name, temp_file_head]

theorem open_temp_file_index_selection_witness :
    temp_file_path env_alloc "a/b?c".toList none 1 =
      "/tmp/xropen-20240105-070809-01-a_b_c".toList ∧
    (∃ w1, open_temp_file 1 atom0 env_alloc w_alloc 0 (some "a/b?c".toList) none = .ok w1 ∧
      (w1.client 0).file_name = some (temp_file_path env_alloc "a/b?c".toList none 1) ∧
      (w1.client 0).file = some w_alloc.fs.inodes.length ∧
      w1.fs.dir = w_alloc.fs.dir ++
        [(temp_file_path env_alloc "a/b?c".toList none 1, w_alloc.fs.inodes.length)] ∧
      w1.fs.inodes = w_alloc.fs.inodes ++ [[]] ∧
      w1.all_clients_size = w_alloc.all_clients_size ∧ w1.requests = w_alloc.requests) ∧
    open_temp_file 1 atom0 env_alloc w_exhausted 0 (some "a/b?c".toList) none = .ok
      { w_exhausted with
        all_clients_size := 0,
        requests := [.change_property_string 77 atom0.error .strerror_errno] } :=
  ⟨by decide,
    (open_temp_file_index_selection 1 atom0 env_alloc w_alloc 0 "a/b?c".toList none
      (by decide)).1 rfl 1 (by decide) (by decide) (by decide),
    (open_temp_file_index_selection 1 atom0 env_alloc w_exhausted 0 "a/b?c".toList none
      (by decide)).2.2.1 w_exhausted_full (by decide) rfl rfl rfl rfl⟩

/-- C10 as stated fails: with the path of index 00 present, the path of index 01
free and an `fdopen` that returns `NULL`, `open_temp_file` creates the path of
index 01 and then kills the client: the creation that succeeded is not the result
of the allocation, the path is in no active slot, the `ERROR` property is
written and the empty file stays in the file system. -/
theorem open_temp_file_fdopen_failure :
    w_alloc.fs.stat (temp_file_path env_fdopen_fails "a/b?c".toList none 0) = some 0 ∧
    w_alloc.fs.stat (temp_file_path env_fdopen_fails "a/b?c".toList none 1) = none ∧
    ∃ w1, open_temp_file 1 atom0 env_fdopen_fails w_alloc 0 (some "a/b?c".toList) none
        = .ok w1 ∧
      w1.fs.dir = w_alloc.fs.dir ++ [("/tmp/xropen-20240105-070809-01-a_b_c".toList, 1)] ∧
      w1.fs.read "/tmp/xropen-20240105-070809-01-a_b_c".toList = some [] ∧
      w1.all_clients_size = 0 ∧ w1.active = [] ∧
      (w1.client 0).file = none ∧
      w1.requests = [.change_property_string 77 atom0.error .strerror_errno] :=
  ⟨by decide, by decide, _, rfl, by decide, by decide, by decide, by decide, by decide,
    by decide⟩

/-! ### Size encoding -/

theorem off_t_wrap_id (x : Int) (h1 : -9223372036854775808 ≤ x) (h2 : x < 9223372036854775808) :
    off_t_wrap x = x := by
  unfold off_t_wrap
  omega

theorem off_t_wrap_range (x : Int) :
    -9223372036854775808 ≤ off_t_wrap x ∧ off_t_wrap x < 9223372036854775808 := by
  unfold off_t_wrap
  omega

/-- C8: for a file size `s` with `0 <= s < 2^63`, the words that `create_window` of
the driver publishes as `SIZE` (low word, then the high word when it is not
zero) are returned whole by the display and decoded by `start_client` to `s`;
one word is published when `s < 2^32`, two words otherwise. -/
theorem size_round_trip (s : Int) (h0 : 0 ≤ s) (h1 : s < 9223372036854775808) :
    create_window_size s =
      (if s < 4294967296 then [(s % 4294967296).toNat]
       else [(s % 4294967296).toNat, (s / 4294967296).toNat]) ∧
    x_get_property (some ⟨XCB_ATOM_INTEGER, 32, create_window_size s⟩) XCB_ATOM_INTEGER 2 =
      ⟨XCB_ATOM_INTEGER, 32, 0, create_window_size s⟩ ∧
    size_ok (x_get_property (some ⟨XCB_ATOM_INTEGER, 32, create_window_size s⟩)
      XCB_ATOM_INTEGER 2) ∧
    start_client_size (x_get_property (some ⟨XCB_ATOM_INTEGER, 32, create_window_size s⟩)
      XCB_ATOM_INTEGER 2) = s := by
  obtain ⟨n, rfl⟩ := Int.eq_ofNat_of_zero_le h0
  have hn : n < 9223372036854775808 := by omega
  have hcw : create_window_size (n : Int) =
      (if n < 4294967296 then [n] else [n % 4294967296, n / 4294967296]) := by
    unfold create_window_size
    have hu : ((n : Int) % 18446744073709551616).toNat = n := by omega
    simp only [hu]
    by_cases hlt : n < 4294967296
    · have h3 : n / 4294967296 % 4294967296 = 0 := by omega
      have h4 : n % 4294967296 = n := by omega
      simp [h3, h4, hlt]
    · have h3 : n / 4294967296 % 4294967296 = n / 4294967296 := by omega
      have h4 : n / 4294967296 ≠ 0 := by omega
      simp [h3, h4, hlt]
  have hx : x_get_property (some ⟨XCB_ATOM_INTEGER, 32, create_window_size (n : Int)⟩)
      XCB_ATOM_INTEGER 2 = ⟨XCB_ATOM_INTEGER, 32, 0, create_window_size (n : Int)⟩ := by
    rw [hcw]
    by_cases hlt : n < 4294967296
    · simp [x_get_property, hlt]
    · simp [x_get_property, hlt]
  refine ⟨?_, hx, ?_, ?_⟩
  · rw [hcw]
    by_cases hlt : n < 4294967296
    · have e1 : ((n : Int) % 4294967296).toNat = n := by omega
      have e2 : (n : Int) < 4294967296 := by omega
      simp [hlt, e1, e2]
    · have e1 : ((n : Int) % 4294967296).toNat = n % 4294967296 := by omega
      have e2 : ¬ (n : Int) < 4294967296 := by omega
      have e3 : ((n : Int) / 4294967296).toNat = n / 4294967296 := by omega
      simp [hlt, e1, e2, e3]
  · rw [hx, hcw]
    by_cases hlt : n < 4294967296
    · simp [size_ok, PropReply.value_len, hlt]
    · simp [size_ok, PropReply.value_len, hlt]
  · rw [hx, hcw]
    by_cases hlt : n < 4294967296
    · simp only [start_client_size, PropReply.value_len, hlt, if_true, List.length_singleton,
        List.getD_cons_zero]
      simp only [show ¬ (1 > 1) by decide, if_false]
      omega
    · simp only [start_client_size, PropReply.value_len, hlt, if_false, List.length_cons,
        List.length_singleton, List.getD_cons_zero, List.getD_cons_succ]
      simp only [List.length_nil, show (0 + 1 + 1 > 1) by decide, if_true]
      have e1 : n % 4294967296 % 4294967296 = n % 4294967296 := by omega
      have e2 : n / 4294967296 % 4294967296 = n / 4294967296 := by omega
      rw [e1, e2]
      rw [off_t_wrap_id (((n / 4294967296 : Nat) : Int) * 4294967296) (by omega) (by omega)]
      rw [off_t_wrap_id _ (by omega) (by omega)]
      omega

theorem size_round_trip_witness :
    create_window_size 4294967301 =
      (if (4294967301 : Int) < 4294967296 then [((4294967301 : Int) % 4294967296).toNat]
       else [((4294967301 : Int) % 4294967296).toNat, ((4294967301 : Int) / 4294967296).toNat]) ∧
    x_get_property (some ⟨XCB_ATOM_INTEGER, 32, create_window_size 4294967301⟩)
        XCB_ATOM_INTEGER 2 =
      ⟨XCB_ATOM_INTEGER, 32, 0, create_window_size 4294967301⟩ ∧
    size_ok (x_get_property (some ⟨XCB_ATOM_INTEGER, 32, create_window_size 4294967301⟩)
      XCB_ATOM_INTEGER 2) ∧
    start_client_size (x_get_property
      (some ⟨XCB_ATOM_INTEGER, 32, create_window_size 4294967301⟩) XCB_ATOM_INTEGER 2) =
        4294967301 :=
  size_round_trip 4294967301 (by decide) (by decide)

/-! ### Announcements -/

theorem exists_least_free (P : Nat → Prop) (k : Nat) (h : ∃ m, m < k ∧ P m) :
    ∃ m, m < k ∧ P m ∧ ∀ j, j < m → ¬ P j := by
  classical
  have h2 : ∃ m, P m := ⟨h.choose, h.choose_spec.2⟩
  refine ⟨Nat.find h2, ?_, Nat.find_spec h2, fun j hj => Nat.find_min h2 hj⟩
  exact lt_of_le_of_lt (Nat.find_min' h2 h.choose_spec.2) h.choose_spec.1

theorem copy_string_prop_string (pn : PropReply) (h8 : pn.format = 8) :
    copy_string_prop (some pn) = some (c_string pn.value) := by
  simp [copy_string_prop, h8, PropReply.raw_bytes, PropReply.value_len]

theorem start_client_valid (fuel : Nat) (atom : ropen_atoms) (env : Env) (w : World)
    (window : Nat) (pn pt ps : PropReply) (m : Nat)
    (hfull : w.all_clients_size < MAX_CLIENTS) (hlen : w.all_clients_size < w.all_clients.length)
    (hname : env.get_property window atom.file_name XCB_ATOM_STRING FILENAME_MAX = some pn)
    (hpn : pn.type = XCB_ATOM_STRING ∧ pn.format = 8)
    (htype : env.get_property window atom.content_type XCB_ATOM_STRING FILENAME_MAX = some pt)
    (hpt : pt.format = 0 ∨ (pt.type = XCB_ATOM_STRING ∧ pt.format = 8))
    (hsize : env.get_property window atom.size XCB_ATOM_INTEGER 2 = some ps)
    (hps : size_ok ps)
    (hfd : env.fdopen_ok = true) (hm : m < MAX_FILE_INDEX)
    (hfree : w.fs.stat
      (temp_file_path env (c_string pn.value) (copy_string_prop (some pt)) m) = none)
    (hless : ∀ j, j < m → w.fs.stat
      (temp_file_path env (c_string pn.value) (copy_string_prop (some pt)) j) ≠ none) :
    start_client fuel atom env w window = .ok
      { all_clients := w.all_clients.set w.all_clients_size
          ⟨window,
            some (temp_file_path env (c_string pn.value) (copy_string_prop (some pt)) m),
            copy_string_prop (some pt), start_client_size ps, 0, some w.fs.inodes.length,
            env.now⟩,
        all_clients_size := w.all_clients_size + 1,
        fs := ⟨w.fs.dir ++ [(temp_file_path env (c_string pn.value)
          (copy_string_prop (some pt)) m, w.fs.inodes.length)], w.fs.inodes ++ [[]]⟩,
        requests := w.requests ++ [.change_window_attributes window CLIENT_EVENT_MASK,
          .delete_property window atom.data, .flush],
        launches := w.launches } := by
  have hnf : w.all_clients_size ≠ MAX_CLIENTS := by omega
  have hnw : w.all_clients_size ≠ 4294967295 := by unfold MAX_CLIENTS at hfull; omega
  have hchk : start_client_checks (some pn) (some pt) (some ps) = .ok true := by
    rw [start_client_checks_good_size pn pt ps hps]
    have : pt.format = 0 ∨ (pn.type = XCB_ATOM_STRING ∧ pn.format = 8 ∧
        pt.type = XCB_ATOM_STRING ∧ pt.format = 8) := by tauto
    simp [this]
  unfold start_client
  simp only [hnf, if_false, hnw, hname, htype, hsize, hchk, Option.getD,
    copy_string_prop_string pn hpn.2]
  rw [open_temp_file_free fuel atom env _ _ _ _ m hm (by simpa [World.set_client] using hfree)
    (by simpa [World.set_client] using hless) hfd]
  simp [World.set_client, World.client, List.getD_eq_getElem?_getD, hlen]

/-- C9: with `MAX_CLIENTS` active slots `start_client` writes "too many clients" to
the `ERROR` property of the announcing window and changes nothing else: the
array, the slot count and the file system are as before. -/
theorem start_client_table_full (fuel : Nat) (atom : ropen_atoms) (env : Env) (w : World)
    (window : Nat) (hfull : w.all_clients_size = MAX_CLIENTS) :
    start_client fuel atom env w window = .ok { w with requests := w.requests ++
      [.change_property_string window atom.error (.literal "too many clients")] } := by
  simp only [start_client, hfull, if_true, kill_non_client]

theorem start_client_table_full_witness :
    w_full.all_clients_size = MAX_CLIENTS ∧ w_full.active.length = 16 ∧
    start_client 1 atom0 (env0 (some (string_property "report")) none
        (some ⟨XCB_ATOM_INTEGER, 32, [3]⟩) none) w_full 77 =
      .ok { w_full with requests := w_full.requests ++
        [.change_property_string 77 atom0.error (.literal "too many clients")] } :=
  ⟨by decide, by decide, start_client_table_full 1 atom0 _ w_full 77 (by decide)⟩

/-- C4: when the table is not full and the `SIZE` reply is missing or fails the
test, `start_client` returns through `fail` with the slot still allocated to the
window and without any request: no `ERROR` property is written and the slot
count stays incremented. No file is created. -/
theorem start_client_bad_size_keeps_slot (fuel : Nat) (atom : ropen_atoms) (env : Env)
    (w : World) (window : Nat)
    (hfull : w.all_clients_size < MAX_CLIENTS) (hlen : w.all_clients_size < w.all_clients.length)
    (hbad : ∀ ps, env.get_property window atom.size XCB_ATOM_INTEGER 2 = some ps → ¬ size_ok ps) :
    ∃ w1, start_client fuel atom env w window = .ok w1 ∧
      w1.all_clients_size = w.all_clients_size + 1 ∧
      (w1.client w.all_clients_size).window = window ∧
      w1.requests = w.requests ∧ w1.fs = w.fs ∧ w1.launches = w.launches := by
  have hnf : w.all_clients_size ≠ MAX_CLIENTS := by omega
  have hnw : w.all_clients_size ≠ 4294967295 := by unfold MAX_CLIENTS at hfull; omega
  have hchk : start_client_checks
      (env.get_property window atom.file_name XCB_ATOM_STRING FILENAME_MAX)
      (env.get_property window atom.content_type XCB_ATOM_STRING FILENAME_MAX)
      (env.get_property window atom.size XCB_ATOM_INTEGER 2) = .ok false := by
    cases hs : env.get_property window atom.size XCB_ATOM_INTEGER 2 with
    | none => rfl
    | some ps => exact start_client_checks_bad_size _ _ ps (hbad ps hs)
  unfold start_client
  simp only [hnf, if_false, hnw, hchk]
  refine ⟨_, rfl, rfl, ?_, rfl, rfl, rfl⟩
  rw [client_set_client]
  exact hlen

theorem start_client_bad_size_keeps_slot_witness :
    ∃ w1, start_client 1 atom0 (env0 (some (string_property "report")) none none none)
        w_empty 77 = .ok w1 ∧
      w1.all_clients_size = w_empty.all_clients_size + 1 ∧
      (w1.client w_empty.all_clients_size).window = 77 ∧
      w1.requests = w_empty.requests ∧ w1.fs = w_empty.fs ∧ w1.launches = w_empty.launches :=
  start_client_bad_size_keeps_slot 1 atom0 _ w_empty 77 (by decide) (by decide)
    (by
      intro ps h
      have hps : ps = ⟨0, 0, 0, []⟩ := by
        have h2 : some (⟨0, 0, 0, []⟩ : PropReply) = some ps := h
        exact (Option.some.inj h2).symm
      subst hps
      decide)

/-- C5: the test on `FILE-NAME` reads the format of the `CONTENT-TYPE` reply. With
a valid `SIZE`, every `FILE-NAME` reply is accepted when `CONTENT-TYPE` is absent
(format 0), and a `FILE-NAME` reply that is not of `STRING` type, an absent one
included, is rejected when `CONTENT-TYPE` is present. -/
theorem start_client_checks_name_test (pn pt ps : PropReply) (hps : size_ok ps) :
    (pt.format = 0 → start_client_checks (some pn) (some pt) (some ps) = .ok true) ∧
    (pt.format ≠ 0 → pn.type ≠ XCB_ATOM_STRING →
      start_client_checks (some pn) (some pt) (some ps) = .ok false) := by
  rw [start_client_checks_good_size pn pt ps hps]
  constructor
  · intro h
    simp [h]
  · intro h1 h2
    simp [h1, h2]

theorem start_client_checks_name_test_witness :
    (start_client_checks (some ⟨XCB_ATOM_INTEGER, 32, 4, []⟩) (some ⟨0, 0, 0, []⟩)
        (some ⟨XCB_ATOM_INTEGER, 32, 0, [1]⟩) = .ok true) ∧
    (start_client_checks (some ⟨0, 0, 0, []⟩) (some ⟨XCB_ATOM_STRING, 8, 0, [97]⟩)
        (some ⟨XCB_ATOM_INTEGER, 32, 0, [1]⟩) = .ok false) ∧
    x_get_property (some ⟨XCB_ATOM_INTEGER, 32, [65]⟩) XCB_ATOM_STRING FILENAME_MAX =
      ⟨XCB_ATOM_INTEGER, 32, 4, []⟩ ∧
    (∃ w1, start_client 1 atom0 (env0 (some ⟨XCB_ATOM_INTEGER, 32, [65]⟩) none
        (some ⟨XCB_ATOM_INTEGER, 32, [1]⟩) none) w_empty 77 = .ok w1 ∧
      w1.fs.dir = [("/tmp/xropen-20240105-070809-00-".toList, 0)]) :=
  ⟨(start_client_checks_name_test ⟨XCB_ATOM_INTEGER, 32, 4, []⟩ ⟨0, 0, 0, []⟩
      ⟨XCB_ATOM_INTEGER, 32, 0, [1]⟩ (by decide)).1 rfl,
   (start_client_checks_name_test ⟨0, 0, 0, []⟩ ⟨XCB_ATOM_STRING, 8, 0, [97]⟩
      ⟨XCB_ATOM_INTEGER, 32, 0, [1]⟩ (by decide)).2 (by decide) (by decide),
   by decide, ⟨_, rfl, by decide⟩⟩

/-- C6: with a valid `SIZE` and neither a `FILE-NAME` nor a `CONTENT-TYPE` property
(replies of format 0), `start_client` passes the `NULL` name of
`copy_string_prop` to `open_temp_file`, where `strlen(name)` faults. -/
theorem start_client_absent_name_faults (fuel : Nat) (atom : ropen_atoms) (env : Env)
    (w : World) (window : Nat) (pn pt ps : PropReply)
    (hfull : w.all_clients_size < MAX_CLIENTS)
    (hname : env.get_property window atom.file_name XCB_ATOM_STRING FILENAME_MAX = some pn)
    (hpn : pn.format = 0)
    (htype : env.get_property window atom.content_type XCB_ATOM_STRING FILENAME_MAX = some pt)
    (hpt : pt.format = 0)
    (hsize : env.get_property window atom.size XCB_ATOM_INTEGER 2 = some ps)
    (hps : size_ok ps) :
    start_client fuel atom env w window = .error .null_pointer := by
  have hnf : w.all_clients_size ≠ MAX_CLIENTS := by omega
  have hnw : w.all_clients_size ≠ 4294967295 := by unfold MAX_CLIENTS at hfull; omega
  have hchk : start_client_checks (some pn) (some pt) (some ps) = .ok true := by
    rw [start_client_checks_good_size pn pt ps hps]
    simp [hpt]
  unfold start_client
  simp only [hnf, if_false, hnw, hname, htype, hsize, hchk, copy_string_prop, hpn, hpt,
    if_true, open_temp_file, check_file_extension]

theorem start_client_absent_name_faults_witness :
    start_client 1 atom0 (env0 none none (some ⟨XCB_ATOM_INTEGER, 32, [5]⟩) none) w_empty 77 =
      .error .null_pointer :=
  start_client_absent_name_faults 1 atom0 _ w_empty 77 ⟨0, 0, 0, []⟩ ⟨0, 0, 0, []⟩
    ⟨XCB_ATOM_INTEGER, 32, 0, [5]⟩ (by decide) rfl rfl rfl rfl rfl (by decide)

/-- A `NULL` reply for `CONTENT-TYPE` next to a reply for `FILE-NAME` makes the
second test of `start_client` dereference `NULL`. -/
theorem start_client_checks_null_type (pn ps : PropReply) (hps : size_ok ps) :
    start_client_checks (some pn) none (some ps) = .error .null_pointer := by
  rw [size_ok_iff] at hps
  unfold start_client_checks
  simp only []
  rw [if_neg hps]

/-! ### Chunk arrival -/

theorem x_get_property_data (atom : ropen_atoms) (d : List Nat) (ll : Nat) :
    x_get_property (some ⟨atom.data, 8, d⟩) atom.data ll =
      ⟨atom.data, 8, d.length - min d.length (4 * ll), d.take (min d.length (4 * ll))⟩ := by
  simp [x_get_property]

/-- The accepting path of `handle_property_change`. -/
theorem handle_property_change_accept (fuel : Nat) (atom : ropen_atoms) (env : Env) (w : World)
    (window c f : Nat) (d : List Nat)
    (hfind : find_client w window = some c)
    (hwin : (w.client c).window = window)
    (hfile : (w.client c).file = some f)
    (hmiss : 0 < off_t_wrap ((w.client c).file_size - (w.client c).file_pos))
    (hd : delivers atom window env d)
    (hfit : (d.length : Int) ≤ 4 * (((if off_t_wrap ((w.client c).file_size -
      (w.client c).file_pos) > (MAX_DATA_SIZE : Int) then (MAX_DATA_SIZE : Int)
      else off_t_wrap ((w.client c).file_size - (w.client c).file_pos)) + 3) / 4)) :
    handle_property_change fuel atom env w (chunk_event atom window) =
      if off_t_wrap ((w.client c).file_pos + (d.length : Int)) = (w.client c).file_size then
        open_file fuel atom env
          (({ w with fs := w.fs.append f d, requests := w.requests ++
              [.delete_property window atom.data, .flush] } : World).set_client c
            { w.client c with
              file_pos := off_t_wrap ((w.client c).file_pos + (d.length : Int)) }) c
      else
        .ok (({ w with fs := w.fs.append f d, requests := w.requests ++
              [.delete_property window atom.data, .flush] } : World).set_client c
            { w.client c with
              file_pos := off_t_wrap ((w.client c).file_pos + (d.length : Int)) }) := by
  have hnm : ¬ off_t_wrap ((w.client c).file_size - (w.client c).file_pos) ≤ 0 := by omega
  obtain ⟨hget, hwr⟩ := hd
  generalize hll : (((if off_t_wrap ((w.client c).file_size -
      (w.client c).file_pos) > (MAX_DATA_SIZE : Int) then (MAX_DATA_SIZE : Int)
      else off_t_wrap ((w.client c).file_size - (w.client c).file_pos)) + 3) / 4) = q at hfit
  have hq : d.length ≤ 4 * q.toNat := by omega
  have hmin : min d.length (4 * q.toNat) = d.length := by omega
  unfold handle_property_change
  simp only [chunk_event, ne_eq, not_true_eq_false, or_self, if_false, hfind, hnm, hwin, hll,
    hget, x_get_property_data, hmin, Nat.sub_self, List.take_length, hfile,
    PropReply.value_len, gt_iff_lt, lt_self_iff_false, min_eq_left hwr]

theorem find_client_first (w : World) (window : Nat) (h0 : 0 < w.all_clients_size)
    (hwin : (w.client 0).window = window) : find_client w window = some 0 := by
  obtain ⟨k, hk⟩ : ∃ k, w.all_clients_size = k + 1 := ⟨w.all_clients_size - 1, by omega⟩
  simp [find_client, hk, find_client_loop, hwin]

/-- C2: a `DATA` property longer than the bytes still missing is written whole when
it fits the requested number of 32-bit words: `file_pos` ends above `file_size`,
the slot stays in the table and more bytes are appended than were missing. -/
theorem handle_property_change_overshoot (fuel : Nat) (atom : ropen_atoms) (env : Env)
    (w : World) (window c f : Nat) (d : List Nat)
    (hfind : find_client w window = some c) (hlen : c < w.all_clients.length)
    (hwin : (w.client c).window = window) (hfile : (w.client c).file = some f)
    (hpos : 0 ≤ (w.client c).file_pos) (hlt : (w.client c).file_pos < (w.client c).file_size)
    (hsz : (w.client c).file_size + 3 < 9223372036854775808)
    (hd : delivers atom window env d)
    (hover : (w.client c).file_size - (w.client c).file_pos < (d.length : Int))
    (hfit : (d.length : Int) ≤
      4 * ((min ((w.client c).file_size - (w.client c).file_pos) (MAX_DATA_SIZE : Int) + 3) / 4)) :
    ∃ w1, handle_property_change fuel atom env w (chunk_event atom window) = .ok w1 ∧
      (w1.client c).file_pos = (w.client c).file_pos + (d.length : Int) ∧
      (w1.client c).file_size = (w.client c).file_size ∧
      (w1.client c).file_size < (w1.client c).file_pos ∧
      w1.all_clients_size = w.all_clients_size ∧
      w1.fs = w.fs.append f d ∧ w1.launches = w.launches := by
  have hM : (MAX_DATA_SIZE : Int) = 16777216 := by simp [MAX_DATA_SIZE]
  have hw1 : off_t_wrap ((w.client c).file_size - (w.client c).file_pos) =
      (w.client c).file_size - (w.client c).file_pos := off_t_wrap_id _ (by omega) (by omega)
  have hw2 : off_t_wrap ((w.client c).file_pos + (d.length : Int)) =
      (w.client c).file_pos + (d.length : Int) := by
    rw [hM] at hfit
    exact off_t_wrap_id _ (by omega) (by omega)
  have hne : ¬ (w.client c).file_pos + (d.length : Int) = (w.client c).file_size := by omega
  have hstep := handle_property_change_accept fuel atom env w window c f d hfind hwin hfile
    (by rw [hw1]; omega) hd
    (by
      rw [hw1]
      rw [hM] at hfit ⊢
      split
      · rw [min_eq_right (by omega)] at hfit; exact hfit
      · rw [min_eq_left (by omega)] at hfit; exact hfit)
  rw [hw2, if_neg hne] at hstep
  refine ⟨_, hstep, ?_, ?_, ?_, rfl, rfl, rfl⟩
  · rw [client_set_client]; exact hlen
  · rw [client_set_client]; exact hlen
  · rw [client_set_client]
    · simp only []; omega
    · exact hlen

theorem handle_property_change_overshoot_witness :
    ∃ w1, handle_property_change 1 atom0 (env0 none none none (some ⟨atom0.data, 8, [1, 2, 3, 4]⟩))
        w_one_byte (chunk_event atom0 77) = .ok w1 ∧
      (w1.client 0).file_pos = (w_one_byte.client 0).file_pos + (([1, 2, 3, 4] : List Nat).length : Int) ∧
      (w1.client 0).file_size = (w_one_byte.client 0).file_size ∧
      (w1.client 0).file_size < (w1.client 0).file_pos ∧
      w1.all_clients_size = w_one_byte.all_clients_size ∧
      w1.fs = w_one_byte.fs.append 0 [1, 2, 3, 4] ∧ w1.launches = w_one_byte.launches :=
  handle_property_change_overshoot 1 atom0 _ w_one_byte 77 0 0 [1, 2, 3, 4] (by decide)
    (by decide) rfl rfl (by decide) (by decide) (by decide) ⟨fun _ => rfl, by decide⟩
    (by decide) (by decide)

theorem stat_unlink_self (fs : FileSys) (p : List Char) : (fs.unlink p).stat p = none := by
  simp only [FileSys.unlink, FileSys.stat, List.lookup_eq_none_iff, List.mem_filter]
  intro e he
  have h2 := he.2
  simp only [bne_iff_ne, ne_eq] at h2 ⊢
  exact fun h => h2 h.symm

theorem client_mk (arr : List xropen_client) (n : Nat) (fs : FileSys) (r : List XRequest)
    (l : List (Option (List Char) × Option (List Char))) (c : Nat) (cl : xropen_client)
    (h : c < arr.length) : (World.mk (arr.set c cl) n fs r l).client c = cl := by
  simp [World.client, List.getD_eq_getElem?_getD, List.getElem?_set_self h]

theorem remove_if_same_self (fs : FileSys) (p : List Char) (f : Nat) (h : fs.stat p = some f) :
    (remove_if_same fs (some p) f).stat p = none := by
  simp [remove_if_same, h, stat_unlink_self]

theorem handle_property_change_no_missing (fuel : Nat) (atom : ropen_atoms) (env : Env)
    (w : World) (window c : Nat) (hfind : find_client w window = some c)
    (hmiss : off_t_wrap ((w.client c).file_size - (w.client c).file_pos) ≤ 0) :
    handle_property_change fuel atom env w (chunk_event atom window) =
      kill_client fuel atom w c (some "invalid data packet") := by
  unfold handle_property_change
  simp only [chunk_event, ne_eq, not_true_eq_false, or_self, if_false, hfind, hmiss, if_true]

/-- C7: for a valid announcement of size 0, `start_client` returns with the slot in
the table, its file open and no launch; the next chunk arrival, whatever it
carries, kills the slot with "invalid data packet" and removes the file, again
without a launch. -/
theorem start_client_size_zero_waits (fuel : Nat) (atom : ropen_atoms) (env : Env) (w : World)
    (window : Nat) (pn pt ps : PropReply) (m : Nat)
    (hfuel : 0 < fuel)
    (hempty : w.all_clients_size = 0) (hlen : 0 < w.all_clients.length)
    (hname : env.get_property window atom.file_name XCB_ATOM_STRING FILENAME_MAX = some pn)
    (hpn : pn.type = XCB_ATOM_STRING ∧ pn.format = 8)
    (htype : env.get_property window atom.content_type XCB_ATOM_STRING FILENAME_MAX = some pt)
    (hpt : pt.format = 0 ∨ (pt.type = XCB_ATOM_STRING ∧ pt.format = 8))
    (hsize : env.get_property window atom.size XCB_ATOM_INTEGER 2 = some ps)
    (hps : size_ok ps) (hzero : start_client_size ps = 0)
    (hfd : env.fdopen_ok = true) (hm : m < MAX_FILE_INDEX)
    (hfree : w.fs.stat
      (temp_file_path env (c_string pn.value) (copy_string_prop (some pt)) m) = none)
    (hless : ∀ j, j < m → w.fs.stat
      (temp_file_path env (c_string pn.value) (copy_string_prop (some pt)) j) ≠ none) :
    ∃ w1, start_client fuel atom env w window = .ok w1 ∧
      w1.all_clients_size = 1 ∧ (w1.client 0).window = window ∧
      (w1.client 0).file = some w.fs.inodes.length ∧
      (w1.client 0).file_size = 0 ∧ (w1.client 0).file_pos = 0 ∧
      w1.launches = w.launches ∧
      ∀ env2, ∃ w2,
        handle_property_change fuel atom env2 w1 (chunk_event atom window) = .ok w2 ∧
        w2.all_clients_size = 0 ∧ w2.launches = w.launches ∧
        w2.requests = w1.requests ++
          [.change_property_string window atom.error (.literal "invalid data packet")] ∧
        w2.fs.stat
          (temp_file_path env (c_string pn.value) (copy_string_prop (some pt)) m) = none := by
  obtain ⟨k, rfl⟩ : ∃ k, fuel = k + 1 := ⟨fuel - 1, by omega⟩
  have hstart := start_client_valid (k + 1) atom env w window pn pt ps m
    (by rw [hempty]; decide) (by omega) hname hpn htype hpt hsize hps hfd hm hfree hless
  rw [hempty, hzero] at hstart
  refine ⟨_, hstart, rfl, ?_, ?_, ?_, ?_, rfl, ?_⟩
  · rw [client_mk _ _ _ _ _ _ _ hlen]
  · rw [client_mk _ _ _ _ _ _ _ hlen]
  · rw [client_mk _ _ _ _ _ _ _ hlen]
  · rw [client_mk _ _ _ _ _ _ _ hlen]
  · intro env2
    rw [handle_property_change_no_missing (k + 1) atom env2 _ window 0
      (find_client_first _ window (Nat.zero_lt_succ 0) (by rw [client_mk _ _ _ _ _ _ _ hlen]))
      (by rw [client_mk _ _ _ _ _ _ _ hlen]; show off_t_wrap ((0 : Int) - 0) ≤ 0; decide)]
    rw [kill_client_last k atom _ 0 _ rfl]
    refine ⟨_, rfl, rfl, rfl, ?_, ?_⟩
    · simp only [client_mk _ _ _ _ _ _ _ hlen]
    · simp only [client_mk _ _ _ _ _ _ _ hlen]
      exact remove_if_same_self _ _ _ (stat_open_excl_same _ _ _ hfree)

theorem start_client_size_zero_waits_witness :
    ∃ w1, start_client 1 atom0 (env0 (some (string_property "report")) none
        (some ⟨XCB_ATOM_INTEGER, 32, [0]⟩) none) w_empty 77 = .ok w1 ∧
      w1.all_clients_size = 1 ∧ (w1.client 0).window = 77 ∧
      (w1.client 0).file = some w_empty.fs.inodes.length ∧
      (w1.client 0).file_size = 0 ∧ (w1.client 0).file_pos = 0 ∧
      w1.launches = w_empty.launches ∧
      ∀ env2, ∃ w2,
        handle_property_change 1 atom0 env2 w1 (chunk_event atom0 77) = .ok w2 ∧
        w2.all_clients_size = 0 ∧ w2.launches = w_empty.launches ∧
        w2.requests = w1.requests ++
          [.change_property_string 77 atom0.error (.literal "invalid data packet")] ∧
        w2.fs.stat (temp_file_path (env0 (some (string_property "report")) none
          (some ⟨XCB_ATOM_INTEGER, 32, [0]⟩) none)
          (c_string (string_property "report").data)
          (copy_string_prop (some ⟨0, 0, 0, []⟩)) 0) = none :=
  start_client_size_zero_waits 1 atom0 _ w_empty 77
    ⟨XCB_ATOM_STRING, 8, 0, (string_property "report").data⟩ ⟨0, 0, 0, []⟩
    ⟨XCB_ATOM_INTEGER, 32, 0, [0]⟩ 0 (by decide) rfl (by decide) (by decide) (by decide)
    rfl (by decide) rfl (by decide) (by decide) rfl (by decide) (by decide)
    (fun j hj => absurd hj (Nat.not_lt_zero j))

/-! ### Complete transfers -/

theorem open_file_last (fuel : Nat) (atom : ropen_atoms) (env : Env) (w : World) (c f : Nat)
    (hc : c + 1 = w.all_clients_size) (hlen : c < w.all_clients.length)
    (hf : (w.client c).file = some f) :
    ∃ w1, open_file (fuel + 1) atom env w c = .ok w1 ∧ w1.all_clients_size = c ∧
      w1.fs = w.fs ∧
      w1.launches = w.launches ++ [((w.client c).file_name, (w.client c).file_type)] := by
  have hcl : ∀ (l : List (Option (List Char) × Option (List Char))),
      (({ w with launches := l } : World).set_client c
        { w.client c with file := none }).client c = { w.client c with file := none } := by
    intro l
    rw [client_set_client]
    exact hlen
  unfold open_file
  simp only [hf]
  by_cases h1 : env.spawnattr_init_ret < 0
  · simp only [h1, if_true]
    rw [kill_client_last fuel atom _ c _ (by simpa [World.set_client] using hc)]
    refine ⟨_, rfl, rfl, ?_, rfl⟩
    simp only [hcl]
    rfl
  · by_cases h2 : env.spawnattr_setpgroup_ret < 0
    · simp only [h1, h2, if_true, if_false]
      rw [kill_client_last fuel atom _ c _ (by simpa [World.set_client] using hc)]
      refine ⟨_, rfl, rfl, ?_, rfl⟩
      simp only [hcl]
      rfl
    · by_cases h3 : env.spawn_ret < 0
      · simp only [h1, h2, h3, if_true, if_false]
        rw [kill_client_last fuel atom _ c _ (by simpa [World.set_client] using hc)]
        refine ⟨_, rfl, rfl, ?_, rfl⟩
        simp only [hcl]
        rfl
      · simp only [h1, h2, h3, if_false]
        rw [close_client_last fuel _ c (by simpa [World.set_client] using hc)]
        refine ⟨_, rfl, rfl, ?_, rfl⟩
        simp only [hcl]
        rfl

theorem append_get (fs : FileSys) (f : Nat) (content d : List Nat)
    (h : fs.inodes.get? f = some content) :
    (fs.append f d).inodes.get? f = some (content ++ d) := by
  simp only [List.get?_eq_getElem?] at h
  have hlt : f < fs.inodes.length := by
    by_contra hge
    rw [List.getElem?_eq_none (by omega)] at h
    exact absurd h (by simp)
  simp [FileSys.append, List.getD_eq_getElem?_getD, h, List.getElem?_set_self hlt]

theorem receive_chunk (fuel : Nat) (atom : ropen_atoms) (env : Env) (w : World) (window : Nat)
    (path : List Char) (type : Option (List Char)) (size : Int) (f pos : Nat)
    (content d : List Nat)
    (hr : receiving w window path type size f pos content)
    (hsz : size < 9223372036854775808)
    (hd : delivers atom window env d) (hne : d ≠ []) (hmax : d.length ≤ MAX_DATA_SIZE)
    (hle : (pos : Int) + (d.length : Int) ≤ size) :
    ((pos : Int) + (d.length : Int) < size →
      ∃ w1, handle_property_change fuel atom env w (chunk_event atom window) = .ok w1 ∧
        receiving w1 window path type size f (pos + d.length) (content ++ d) ∧
        w1.launches = w.launches) ∧
    ((pos : Int) + (d.length : Int) = size →
      ∃ w1, handle_property_change (fuel + 1) atom env w (chunk_event atom window) = .ok w1 ∧
        w1.all_clients_size = 0 ∧ w1.fs.read path = some (content ++ d) ∧
        w1.launches = w.launches ++ [(some path, type)]) := by
  obtain ⟨hs1, hl, hwin, hfn, hft, hfs, hfp, hff, hst, hin⟩ := hr
  have hdl : 0 < d.length := List.length_pos.mpr hne
  have hM : (MAX_DATA_SIZE : Int) = 16777216 := by simp [MAX_DATA_SIZE]
  have hmax2 : (d.length : Int) ≤ 16777216 := by
    have : d.length ≤ 16777216 := hmax
    omega
  have hfind : find_client w window = some 0 := find_client_first w window (by omega) hwin
  have hw1 : off_t_wrap ((w.client 0).file_size - (w.client 0).file_pos) = size - (pos : Int) := by
    rw [hfs, hfp]
    exact off_t_wrap_id _ (by omega) (by omega)
  have hw2 : off_t_wrap ((w.client 0).file_pos + (d.length : Int)) =
      (pos : Int) + (d.length : Int) := by
    rw [hfp]
    exact off_t_wrap_id _ (by omega) (by omega)
  have hstep : ∀ fl, handle_property_change fl atom env w (chunk_event atom window) = _ :=
    fun fl => handle_property_change_accept fl atom env w window 0 f d hfind hwin hff
      (by rw [hw1]; omega) hd
      (by
        rw [hw1, hM]
        split <;> omega)
  simp only [hw2] at hstep
  constructor
  · intro hlt
    have hne2 : ¬ (pos : Int) + (d.length : Int) = (w.client 0).file_size := by rw [hfs]; omega
    rw [hstep fuel, if_neg hne2]
    refine ⟨_, rfl, ⟨hs1, by simpa [World.set_client] using hl, ?_, ?_, ?_, ?_, ?_, ?_, hst,
      append_get _ _ _ _ hin⟩, rfl⟩
    · rw [client_set_client] <;> first | exact hl | exact hwin
    · rw [client_set_client] <;> first | exact hl | exact hfn
    · rw [client_set_client] <;> first | exact hl | exact hft
    · rw [client_set_client] <;> first | exact hl | exact hfs
    · rw [client_set_client] <;> first | exact hl | simp
    · rw [client_set_client] <;> first | exact hl | exact hff
  · intro heq
    rw [hstep (fuel + 1), if_pos (by rw [hfs]; exact heq)]
    obtain ⟨w1, h1, h2, h3, h4⟩ := open_file_last fuel atom env
      (({ w with fs := w.fs.append f d, requests := w.requests ++
          [.delete_property window atom.data, .flush] } : World).set_client 0
        { w.client 0 with file_pos := (pos : Int) + (d.length : Int) }) 0 f
      (by simpa [World.set_client] using hs1.symm) (by simpa [World.set_client] using hl)
      (by rw [client_set_client] <;> first | exact hl | exact hff)
    refine ⟨w1, h1, h2, ?_, ?_⟩
    · rw [h3]
      simp only [FileSys.read, World.set_client]
      have : (w.fs.append f d).stat path = some f := hst
      rw [this]
      exact append_get _ _ _ _ hin
    · rw [h4, client_set_client]
      · simp only [World.set_client, hfn, hft]
      · exact hl

theorem start_client_size_lt (ps : PropReply) : start_client_size ps < 9223372036854775808 := by
  unfold start_client_size
  simp only []
  split
  · exact (off_t_wrap_range _).2
  · omega

theorem flatten_length_zero (steps : List (Env × List Nat))
    (hne : ∀ s ∈ steps, s.2 ≠ [])
    (h0 : (steps.map Prod.snd).flatten.length = 0) : steps = [] := by
  cases steps with
  | nil => rfl
  | cons s rest =>
    have h1 : 0 < s.2.length := List.length_pos.mpr (hne s (List.mem_cons_self _ _))
    simp only [List.map_cons, List.flatten_cons, List.length_append] at h0
    omega

theorem handle_chunks_complete (fuel : Nat) (atom : ropen_atoms) (window : Nat)
    (path : List Char) (type : Option (List Char)) (size : Int) (f : Nat)
    (hsz : size < 9223372036854775808) (steps : List (Env × List Nat)) :
    ∀ (w : World) (pos : Nat) (content : List Nat),
      receiving w window path type size f pos content → (pos : Int) < size →
      (∀ s ∈ steps, s.2 ≠ [] ∧ s.2.length ≤ MAX_DATA_SIZE ∧ delivers atom window s.1 s.2) →
      (pos : Int) + (((steps.map Prod.snd).flatten.length : Nat) : Int) = size →
      (∃ w1, handle_chunks (fuel + 1) atom window w (steps.map Prod.fst) = .ok w1 ∧
        w1.all_clients_size = 0 ∧
        w1.fs.read path = some (content ++ (steps.map Prod.snd).flatten) ∧
        w1.launches = w.launches ++ [(some path, type)]) ∧
      (∀ k, k < steps.length →
        ∃ w2, handle_chunks (fuel + 1) atom window w ((steps.take k).map Prod.fst) = .ok w2 ∧
          w2.launches = w.launches) := by
  induction steps with
  | nil =>
    intro w pos content _ hlt _ hsum
    simp at hsum
    omega
  | cons s rest ih =>
    intro w pos content hr hlt hgood hsum
    obtain ⟨hne, hmax, hd⟩ := hgood s (List.mem_cons_self _ _)
    have hrest : ∀ t ∈ rest, t.2 ≠ [] ∧ t.2.length ≤ MAX_DATA_SIZE ∧
        delivers atom window t.1 t.2 := fun t ht => hgood t (List.mem_cons_of_mem _ ht)
    simp only [List.map_cons, List.flatten_cons, List.length_append, Nat.cast_add] at hsum
    have hstep := receive_chunk fuel atom s.1 w window path type size f pos content s.2 hr hsz
      hd hne hmax (by omega)
    by_cases hfin : (pos : Int) + (s.2.length : Int) = size
    · have hr0 : rest = [] := flatten_length_zero rest (fun t ht => (hrest t ht).1) (by omega)
      subst hr0
      obtain ⟨w1, h1, h2, h3, h4⟩ := hstep.2 hfin
      constructor
      · refine ⟨w1, ?_, h2, ?_, h4⟩
        · simp only [List.map_cons, List.map_nil, handle_chunks, h1]
        · simpa using h3
      · intro k hk
        have hk0 : k = 0 := by simpa using hk
        subst hk0
        exact ⟨w, rfl, rfl⟩
    · obtain ⟨w1, h1, h2, h3⟩ := (receive_chunk (fuel + 1) atom s.1 w window path type size f
        pos content s.2 hr hsz hd hne hmax (by omega)).1 (by omega)
      obtain ⟨⟨w2, g1, g2, g3, g4⟩, gk⟩ := ih w1 (pos + s.2.length) (content ++ s.2) h2
        (by push_cast; omega) hrest (by push_cast; omega)
      constructor
      · refine ⟨w2, ?_, g2, ?_, ?_⟩
        · simp only [List.map_cons, handle_chunks, h1]
          exact g1
        · rw [g3]
          simp
        · rw [g4, h3]
      · intro k hk
        cases k with
        | zero => exact ⟨w, rfl, rfl⟩
        | succ j =>
          obtain ⟨w3, e1, e2⟩ := gk j (by simpa using hk)
          refine ⟨w3, ?_, by rw [e2, h3]⟩
          simp only [List.take_succ_cons, List.map_cons, handle_chunks, h1]
          exact e1

theorem receiving_start (w : World) (window : Nat) (path : List Char)
    (type : Option (List Char)) (size : Int) (now : Nat) (r : List XRequest)
    (hempty : w.all_clients_size = 0) (hlen : 0 < w.all_clients.length)
    (hfree : w.fs.stat path = none) :
    receiving
      { all_clients := w.all_clients.set w.all_clients_size
          ⟨window, some path, type, size, 0, some w.fs.inodes.length, now⟩,
        all_clients_size := w.all_clients_size + 1,
        fs := ⟨w.fs.dir ++ [(path, w.fs.inodes.length)], w.fs.inodes ++ [[]]⟩,
        requests := r,
        launches := w.launches } window path type size w.fs.inodes.length 0 [] := by
  rw [hempty]
  refine ⟨rfl, by simpa using hlen, ?_, ?_, ?_, ?_, ?_, ?_, stat_open_excl_same _ _ _ hfree, ?_⟩
  · rw [client_mk _ _ _ _ _ _ _ hlen]
  · rw [client_mk _ _ _ _ _ _ _ hlen]
  · rw [client_mk _ _ _ _ _ _ _ hlen]
  · rw [client_mk _ _ _ _ _ _ _ hlen]
  · rw [client_mk _ _ _ _ _ _ _ hlen]
    rfl
  · rw [client_mk _ _ _ _ _ _ _ hlen]
  · simp

/-- C1 (amended): for a valid announcement of a size of at least 1 on an empty
table, when the temp file is allocated at its least free index `m` and the
source bytes arrive as non-empty chunks of at most `MAX_DATA_SIZE` bytes that
`fwrite` takes whole, `start_client` followed by `handle_property_change` once
per chunk returns; the destination file holds the concatenation of the chunks,
`open_file` was invoked exactly once, with the allocated path and the type, not
before the last chunk, and the table is empty. -/
theorem transfer_complete (fuel : Nat) (atom : ropen_atoms) (env : Env) (w : World)
    (window : Nat) (pn pt ps : PropReply) (m : Nat) (steps : List (Env × List Nat))
    (hfuel : 0 < fuel)
    (hempty : w.all_clients_size = 0) (hlen : 0 < w.all_clients.length)
    (hname : env.get_property window atom.file_name XCB_ATOM_STRING FILENAME_MAX = some pn)
    (hpn : pn.type = XCB_ATOM_STRING ∧ pn.format = 8)
    (htype : env.get_property window atom.content_type XCB_ATOM_STRING FILENAME_MAX = some pt)
    (hpt : pt.format = 0 ∨ (pt.type = XCB_ATOM_STRING ∧ pt.format = 8))
    (hsize : env.get_property window atom.size XCB_ATOM_INTEGER 2 = some ps)
    (hps : size_ok ps) (hpos : 1 ≤ start_client_size ps)
    (hfd : env.fdopen_ok = true) (hm : m < MAX_FILE_INDEX)
    (hfree : w.fs.stat
      (temp_file_path env (c_string pn.value) (copy_string_prop (some pt)) m) = none)
    (hless : ∀ j, j < m → w.fs.stat
      (temp_file_path env (c_string pn.value) (copy_string_prop (some pt)) j) ≠ none)
    (hsteps : ∀ s ∈ steps,
      s.2 ≠ [] ∧ s.2.length ≤ MAX_DATA_SIZE ∧ delivers atom window s.1 s.2)
    (hsum : (((steps.map Prod.snd).flatten.length : Nat) : Int) = start_client_size ps) :
    ∃ w1, transfer fuel atom window env (steps.map Prod.fst) w = .ok w1 ∧
      w1.fs.read (temp_file_path env (c_string pn.value) (copy_string_prop (some pt)) m) =
        some (steps.map Prod.snd).flatten ∧
      w1.launches = w.launches ++
        [(some (temp_file_path env (c_string pn.value) (copy_string_prop (some pt)) m),
          copy_string_prop (some pt))] ∧
      w1.all_clients_size = 0 ∧
      ∀ k, k < steps.length →
        ∃ w2, transfer fuel atom window env ((steps.take k).map Prod.fst) w = .ok w2 ∧
          w2.launches = w.launches := by
  obtain ⟨k, rfl⟩ : ∃ k, fuel = k + 1 := ⟨fuel - 1, by omega⟩
  have hstart := start_client_valid (k + 1) atom env w window pn pt ps m
    (by rw [hempty]; decide) (by omega) hname hpn htype hpt hsize hps hfd hm hfree hless
  have hrec := receiving_start w window
    (temp_file_path env (c_string pn.value) (copy_string_prop (some pt)) m)
    (copy_string_prop (some pt)) (start_client_size ps) env.now
    (w.requests ++ [.change_window_attributes window CLIENT_EVENT_MASK,
      .delete_property window atom.data, .flush]) hempty hlen hfree
  obtain ⟨⟨w1, g1, g2, g3, g4⟩, gk⟩ := handle_chunks_complete k atom window _ _ _ _
    (start_client_size_lt ps) steps _ 0 [] hrec (by push_cast; omega) hsteps
    (by push_cast; omega)
  refine ⟨w1, ?_, ?_, g4, g2, ?_⟩
  · simp only [transfer, hstart]
    exact g1
  · simpa using g3
  · intro j hj
    obtain ⟨w2, e1, e2⟩ := gk j hj
    refine ⟨w2, ?_, e2⟩
    simp only [transfer, hstart]
    exact e1

theorem transfer_complete_witness :
    ∃ w1, transfer 1 atom0 77 env_announce_three (steps_three.map Prod.fst) w_empty = .ok w1 ∧
      w1.fs.read (temp_file_path env_announce_three (c_string (string_property "report").data)
          (copy_string_prop (some ⟨0, 0, 0, []⟩)) 0) =
        some (steps_three.map Prod.snd).flatten ∧
      w1.launches = w_empty.launches ++
        [(some (temp_file_path env_announce_three (c_string (string_property "report").data)
            (copy_string_prop (some ⟨0, 0, 0, []⟩)) 0),
          copy_string_prop (some ⟨0, 0, 0, []⟩))] ∧
      w1.all_clients_size = 0 ∧
      ∀ k, k < steps_three.length →
        ∃ w2, transfer 1 atom0 77 env_announce_three ((steps_three.take k).map Prod.fst)
            w_empty = .ok w2 ∧
          w2.launches = w_empty.launches :=
  transfer_complete 1 atom0 env_announce_three w_empty 77
    ⟨XCB_ATOM_STRING, 8, 0, (string_property "report").data⟩ ⟨0, 0, 0, []⟩
    ⟨XCB_ATOM_INTEGER, 32, 0, [3]⟩ 0 steps_three (by decide) rfl (by decide) rfl (by decide)
    rfl (by decide) rfl (by decide) (by decide) rfl (by decide) (by decide)
    (fun j hj => absurd hj (Nat.not_lt_zero j))
    (by
      intro s hs
      simp only [steps_three, List.mem_cons, List.mem_singleton, List.not_mem_nil,
        or_false] at hs
      rcases hs with rfl | rfl
      · exact ⟨by decide, by decide, fun _ => rfl, by decide⟩
      · exact ⟨by decide, by decide, fun _ => rfl, by decide⟩)
    (by decide)

/-- The rejecting path of `handle_property_change` for a property longer than the
requested words. -/
theorem handle_property_change_too_long (fuel : Nat) (atom : ropen_atoms) (env : Env)
    (w : World) (window c : Nat) (d : List Nat)
    (hfind : find_client w window = some c)
    (hwin : (w.client c).window = window)
    (hmiss : 0 < off_t_wrap ((w.client c).file_size - (w.client c).file_pos))
    (hd : delivers atom window env d)
    (hlong : 4 * (((if off_t_wrap ((w.client c).file_size -
      (w.client c).file_pos) > (MAX_DATA_SIZE : Int) then (MAX_DATA_SIZE : Int)
      else off_t_wrap ((w.client c).file_size - (w.client c).file_pos)) + 3) / 4) <
        (d.length : Int)) :
    handle_property_change fuel atom env w (chunk_event atom window) =
      kill_client fuel atom w c (some "invalid data property") := by
  have hnm : ¬ off_t_wrap ((w.client c).file_size - (w.client c).file_pos) ≤ 0 := by omega
  obtain ⟨hget, _⟩ := hd
  generalize hll : (((if off_t_wrap ((w.client c).file_size -
      (w.client c).file_pos) > (MAX_DATA_SIZE : Int) then (MAX_DATA_SIZE : Int)
      else off_t_wrap ((w.client c).file_size - (w.client c).file_pos)) + 3) / 4) = q at hlong
  have hmin : min d.length (4 * q.toNat) = 4 * q.toNat := by omega
  have hba : d.length - 4 * q.toNat > 0 := by omega
  unfold handle_property_change
  simp only [chunk_event, ne_eq, not_true_eq_false, or_self, if_false, hfind, hnm, hwin, hll,
    hget, x_get_property_data, hmin, hba, or_true, if_true]

theorem transfer_single (fuel : Nat) (atom : ropen_atoms) (window : Nat) (env env1 : Env)
    (w w1 w2 : World) (h1 : start_client fuel atom env w window = .ok w1)
    (h2 : handle_property_change fuel atom env1 w1 (chunk_event atom window) = .ok w2) :
    transfer fuel atom window env [env1] w = .ok w2 := by
  simp only [transfer, h1, handle_chunks, h2]

/-- C1 as stated fails: the announcement of 16777217 bytes is valid and the single
chunk `big_chunk` of 16777217 bytes is non-empty, is the whole source and is
not longer than the bytes missing, yet `handle_property_change` kills the
client with "invalid data property": `open_file` is never invoked and the
destination file is removed. -/
theorem transfer_large_chunk_rejected :
    big_chunk ≠ [] ∧ big_chunk.length = 16777217 ∧ delivers atom0 77 env_big big_chunk ∧
    start_client_size ⟨XCB_ATOM_INTEGER, 32, 0, [16777217]⟩ = 16777217 ∧
    ∃ w1, transfer 1 atom0 77 env_announce_big [env_big] w_empty = .ok w1 ∧
      w1.launches = [] ∧ w1.all_clients_size = 0 ∧
      w1.fs.read "/tmp/xropen-20240105-070809-00-report".toList = none ∧
      w1.requests.getLast? =
        some (.change_property_string 77 atom0.error (.literal "invalid data property")) := by
  have hlen : big_chunk.length = 16777217 := List.length_replicate 16777217 0
  have hdel : delivers atom0 77 env_big big_chunk :=
    ⟨fun _ => rfl, by rw [hlen]; decide⟩
  refine ⟨?_, hlen, hdel, by decide, ?_⟩
  · intro h
    rw [h] at hlen
    exact absurd hlen (by decide)
  · have hstart := start_client_valid 1 atom0 env_announce_big w_empty 77
      ⟨XCB_ATOM_STRING, 8, 0, (string_property "report").data⟩ ⟨0, 0, 0, []⟩
      ⟨XCB_ATOM_INTEGER, 32, 0, [16777217]⟩ 0 (by decide) (by decide) rfl (by decide) rfl
      (by decide) rfl (by decide) rfl (by decide) (by decide)
      (fun j hj => absurd hj (Nat.not_lt_zero j))
    have hl : 0 < w_empty.all_clients.length := by decide
    have hpath : temp_file_path env_announce_big (c_string (string_property "report").data)
        (copy_string_prop (some ⟨0, 0, 0, []⟩)) 0 =
        "/tmp/xropen-20240105-070809-00-report".toList := by decide
    have hsz : start_client_size ⟨XCB_ATOM_INTEGER, 32, 0, [16777217]⟩ = 16777217 := by decide
    rw [hpath, hsz, show w_empty.all_clients_size = 0 from rfl] at hstart
    obtain ⟨W, hW, hWc, hWn, hWl, hWs⟩ : ∃ W : World,
        start_client 1 atom0 env_announce_big w_empty 77 = .ok W ∧
        W.client 0 = ⟨77, some "/tmp/xropen-20240105-070809-00-report".toList,
          none, 16777217, 0, some 0, 1000⟩ ∧
        W.all_clients_size = 1 ∧ W.launches = [] ∧
        W.fs.stat "/tmp/xropen-20240105-070809-00-report".toList = some 0 :=
      ⟨_, hstart, client_mk _ _ _ _ _ _ _ hl, rfl, rfl, by decide⟩
    have hkill := handle_property_change_too_long 1 atom0 env_big W 77 0 big_chunk
      (find_client_first W 77 (by omega) (by rw [hWc]))
      (by rw [hWc])
      (by rw [hWc]; show 0 < off_t_wrap ((16777217 : Int) - 0); decide)
      hdel
      (by
        rw [hWc, hlen]
        show 4 * (((if off_t_wrap ((16777217 : Int) - 0) > (MAX_DATA_SIZE : Int)
          then (MAX_DATA_SIZE : Int) else off_t_wrap ((16777217 : Int) - 0)) + 3) / 4) <
            ((16777217 : Nat) : Int)
        decide)
    rw [kill_client_last 0 atom0 W 0 _ (by omega)] at hkill
    refine ⟨_, transfer_single _ _ _ _ _ _ _ _ hW hkill, hWl, rfl, ?_, ?_⟩
    · simp only [hWc, FileSys.read]
      rw [remove_if_same_self _ _ _ hWs]
    · simp [List.getLast?_append, hWc]

/-! ### Name sanitization -/

theorem lor_32_letter (n : Nat) :
    (97 ≤ n ||| 32 ∧ n ||| 32 ≤ 122) ↔ (65 ≤ n ∧ n ≤ 90) ∨ (97 ≤ n ∧ n ≤ 122) := by
  by_cases h : n < 128
  · have hall : ∀ m, m < 128 →
        ((97 ≤ m ||| 32 ∧ m ||| 32 ≤ 122) ↔ (65 ≤ m ∧ m ≤ 90) ∨ (97 ≤ m ∧ m ≤ 122)) := by
      decide
    exact hall n h
  · have hge : n ≥ 2 ^ 7 := by omega
    obtain ⟨i, hi, hbit⟩ := Nat.ge_two_pow_implies_high_bit_true hge
    have hb : (n ||| 32).testBit i = true := by simp [Nat.testBit_or, hbit]
    have h1 : n ||| 32 ≥ 2 ^ i := Nat.testBit_implies_ge hb
    have h2 : 2 ^ 7 ≤ 2 ^ i := Nat.pow_le_pow_right (by decide) hi
    constructor
    · intro ⟨_, h3⟩
      omega
    · intro h3
      omega

theorem is_safe_char_eq (c : Char) : is_safe_char c = in_safe_class c := by
  unfold is_safe_char in_safe_class
  have h := lor_32_letter c.toNat
  by_cases h1 : 97 ≤ c.toNat ||| 32 ∧ c.toNat ||| 32 ≤ 122
  · have h2 := h.mp h1
    rcases h2 with h2 | h2
    · simp [h1.1, h1.2, h2.1, h2.2]
    · simp [h1.1, h1.2, h2.1, h2.2]
  · have h2 : ¬ ((65 ≤ c.toNat ∧ c.toNat ≤ 90) ∨ (97 ≤ c.toNat ∧ c.toNat ≤ 122)) :=
      fun h3 => h1 (h.mpr h3)
    have e1 : (decide (c.toNat ||| 32 ≥ 97) && decide (c.toNat ||| 32 ≤ 122)) = false := by
      simpa using h1
    have e2 : (decide (65 ≤ c.toNat) && decide (c.toNat ≤ 90)) = false := by
      have : ¬ (65 ≤ c.toNat ∧ c.toNat ≤ 90) := fun h3 => h2 (Or.inl h3)
      simpa using this
    have e3 : (decide (97 ≤ c.toNat) && decide (c.toNat ≤ 122)) = false := by
      have : ¬ (97 ≤ c.toNat ∧ c.toNat ≤ 122) := fun h3 => h2 (Or.inr h3)
      simpa using this
    rw [e1, e2, e3]
    simp only [ge_iff_le]
    generalize (decide (48 ≤ c.toNat) && decide (c.toNat ≤ 57)) = e
    generalize (c == '_') = a
    generalize (c == '-') = b
    generalize (c == '.') = d
    cases a <;> cases b <;> cases d <;> cases e <;> rfl


theorem in_safe_class_underscore : in_safe_class '_' = true := by decide

theorem temp_file_base_eq (name : List Char) (name_end : Nat) :
    temp_file_base name
        (if name_end > MAX_FILE_BASENAME then MAX_FILE_BASENAME else name_end) =
      sanitized_base (name.take name_end) := by
  have hsub : (fun p => if is_safe_char p = true then p else '_') =
      (fun ch => if in_safe_class ch = true then ch else '_') := by
    funext p
    rw [is_safe_char_eq]
  unfold temp_file_base sanitized_base
  rw [hsub]
  congr 1
  unfold MAX_FILE_BASENAME
  split
  · rw [List.take_take, List.length_take, List.take_eq_take]
    omega
  · rw [List.take_take, List.length_take, List.take_eq_take]
    omega

/-- C12: the base name that `open_temp_file` writes for a name whose end the
extension check put at `name_end` is the first `min(length, 80)` characters of
the suffix-stripped name, each kept when it is in `[A-Za-z0-9._-]` and replaced
by `_` otherwise, position by position; it has at most 80 characters, all of
them in `[A-Za-z0-9._-]`; it is the base name of every path that
`open_temp_file` tries; and `a/b?c` gives `a_b_c`. -/
theorem temp_file_base_sanitized (name : List Char) (name_end : Nat) :
    temp_file_base name
        (if name_end > MAX_FILE_BASENAME then MAX_FILE_BASENAME else name_end) =
      sanitized_base (name.take name_end) ∧
    (sanitized_base (name.take name_end)).length = min (name.take name_end).length 80 ∧
    (sanitized_base (name.take name_end)).length ≤ 80 ∧
    (∀ i, i < min (name.take name_end).length 80 →
      (sanitized_base (name.take name_end)).get? i =
        ((name.take name_end).get? i).map (fun ch => if in_safe_class ch then ch else '_')) ∧
    (∀ ch, ch ∈ sanitized_base (name.take name_end) → in_safe_class ch = true) ∧
    (∀ (env : Env) (type : Option (List Char)), ∃ ext name_end0,
      check_file_extension env.mime_types (some name) type = .ok (ext, name_end0) ∧
      ∀ i, temp_file_path env name type i =
        temp_file_head env.tm ++ [Char.ofNat (48 + i / 10), Char.ofNat (48 + i % 10)] ++
          ['-'] ++ sanitized_base (name.take name_end0) ++ ext) ∧
    temp_file_base "a/b?c".toList
        (if "a/b?c".toList.length > MAX_FILE_BASENAME then MAX_FILE_BASENAME
          else "a/b?c".toList.length) = "a_b_c".toList := by
  refine ⟨temp_file_base_eq name name_end, ?_, ?_, ?_, ?_, ?_, by decide⟩
  · simp [sanitized_base]
  · simp only [sanitized_base, List.length_map, List.length_take]
    omega
  · intro i hi
    simp only [sanitized_base, List.get?_eq_getElem?, List.getElem?_map]
    rw [List.getElem?_take_of_lt (by omega)]
  · intro ch hch
    simp only [sanitized_base, List.mem_map] at hch
    obtain ⟨a, _, ha⟩ := hch
    by_cases hs : in_safe_class a = true
    · rw [if_pos hs] at ha
      rw [← ha]
      exact hs
    · rw [if_neg hs] at ha
      rw [← ha]
      exact in_safe_class_underscore
  · intro env type
    obtain ⟨⟨ext, name_end0⟩, hr⟩ := check_file_extension_some env.mime_types name type
    refine ⟨ext, name_end0, hr, fun i => ?_⟩
    unfold temp_file_path
    simp only [hr, temp_file_name]
    rw [temp_file_base_eq]

theorem temp_file_base_sanitized_witness :
    (sanitized_base ("a/b?c".toList.take 5)).get? 1 =
      (("a/b?c".toList.take 5).get? 1).map (fun ch => if in_safe_class ch then ch else '_') ∧
    in_safe_class '_' = true :=
  ⟨(temp_file_base_sanitized "a/b?c".toList 5).2.2.2.1 1 (by decide),
   (temp_file_base_sanitized "a/b?c".toList 5).2.2.2.2.1 '_' (by decide)⟩

/-! ### Extension derivation -/

theorem check_file_extension_words_eq (name : List Char) (fuel : Nat) :
    ∀ (cur rext : List Char) (name_end : Nat),
      check_file_extension_words name fuel cur rext name_end =
        extension_scan name (line_words fuel cur) rext name_end := by
  induction fuel with
  | zero => intro cur rext name_end; rfl
  | succ k ih =>
    intro cur rext name_end
    unfold check_file_extension_words line_words
    cases hg : get_next_word cur with
    | none => rfl
    | some p =>
      obtain ⟨mext, rest⟩ := p
      simp only []
      unfold extension_scan
      by_cases hlen : mext.length > MAX_FILE_EXT
      · simp only [hlen, if_true]
        exact ih rest rext name_end
      · simp only [hlen, if_false]
        split
        · rfl
        · exact ih rest _ name_end

theorem extension_scan_append (name : List Char) (a b : List (List Char)) :
    ∀ (rext : List Char) (name_end : Nat),
      extension_scan name (a ++ b) rext name_end =
        match extension_scan name a rext name_end with
        | (rext1, name_end1, true) => (rext1, name_end1, true)
        | (rext1, name_end1, false) => extension_scan name b rext1 name_end1 := by
  induction a with
  | nil => intro rext name_end; rfl
  | cons mext rest ih =>
    intro rext name_end
    simp only [List.cons_append, extension_scan]
    by_cases hlen : mext.length > MAX_FILE_EXT
    · simp only [hlen, if_true]
      exact ih rext name_end
    · simp only [hlen, if_false]
      split
      · rfl
      · exact ih _ name_end

theorem check_file_extension_lines_eq (name type : List Char) (lines : List (List Char)) :
    ∀ (rext : List Char) (name_end : Nat),
      check_file_extension_lines name type lines rext name_end =
        ((extension_scan name (table_extensions type lines) rext name_end).1,
         (extension_scan name (table_extensions type lines) rext name_end).2.1) := by
  induction lines with
  | nil => intro rext name_end; rfl
  | cons line rest ih =>
    intro rext name_end
    unfold check_file_extension_lines table_extensions
    cases hg : get_next_word line with
    | none => exact ih rext name_end
    | some p =>
      obtain ⟨mtype, cur⟩ := p
      simp only []
      split
      · exact ih rext name_end
      · rw [check_file_extension_words_eq, extension_scan_append]
        generalize extension_scan name (line_words (cur.length + 1) cur) rext name_end = r
        obtain ⟨r1, r2, r3⟩ := r
        cases r3 with
        | true => rfl
        | false => exact ih r1 r2


theorem tolower_dot : tolower '.' = '.' := by decide

theorem tolower_eq_dot (c : Char) (h : tolower c = '.') : c = '.' := by
  unfold tolower at h
  split at h
  · rename_i hu
    have hall : ∀ n, n < 91 → 65 ≤ n → Char.ofNat (n + 32) ≠ '.' := by decide
    exact absurd h (hall c.toNat (by omega) hu.1)
  · exact h

theorem memcasecmp_eq_zero (len : Nat) :
    ∀ (a b : List Char), len ≤ a.length → len ≤ b.length →
      (memcasecmp a b len = 0 ↔ (a.take len).map tolower = (b.take len).map tolower) := by
  induction len with
  | zero => intro a b _ _; simp [memcasecmp]
  | succ k ih =>
    intro a b ha hb
    cases a with
    | nil => simp at ha
    | cons x xs =>
      cases b with
      | nil => simp at hb
      | cons y ys =>
        have hxs : k ≤ xs.length := by simpa using ha
        have hys : k ≤ ys.length := by simpa using hb
        simp only [memcasecmp, List.headD_cons, List.tail_cons, List.take_succ_cons,
          List.map_cons, List.cons.injEq]
        by_cases hxy : tolower x = tolower y
        · simp [hxy, ih xs ys hxs hys]
        · simp [hxy]

theorem is_match_eq (name e : List Char) :
    (decide (name.length ≥ e.length + 2) &&
      name.getD (name.length - e.length - 1) NUL == '.' &&
      memcasecmp (name.drop (name.length - e.length)) e e.length == 0) =
    ends_with_extension name e := by
  unfold ends_with_extension
  by_cases hlen : e.length + 2 ≤ name.length
  · have hidx : name.length - e.length - 1 < name.length := by omega
    have hdrop : name.drop (name.length - (e.length + 1)) =
        name[name.length - e.length - 1] :: name.drop (name.length - e.length) := by
      have h1 : name.length - (e.length + 1) = name.length - e.length - 1 := by omega
      have h2 : name.length - e.length - 1 + 1 = name.length - e.length := by omega
      rw [h1, List.drop_eq_getElem_cons hidx, h2]
    have hmem := memcasecmp_eq_zero e.length (name.drop (name.length - e.length)) e
      (by rw [List.length_drop]; omega) (le_refl _)
    have htake : (name.drop (name.length - e.length)).take e.length =
        name.drop (name.length - e.length) := by
      apply List.take_of_length_le
      rw [List.length_drop]
      omega
    rw [htake, List.take_length] at hmem
    rw [hdrop, List.getD_eq_getElem name NUL hidx]
    simp only [ge_iff_le, hlen, decide_True, Bool.true_and, List.map_cons, tolower_dot]
    rw [Bool.eq_iff_iff]
    simp only [Bool.and_eq_true, beq_iff_eq, List.cons.injEq]
    constructor
    · intro ⟨h1, h2⟩
      exact ⟨by rw [h1, tolower_dot], hmem.mp h2⟩
    · intro ⟨h1, h2⟩
      exact ⟨tolower_eq_dot _ h1, hmem.mpr h2⟩
  · simp [hlen]


theorem extension_scan_eq (name : List Char) (exts : List (List Char)) :
    ∀ (rext : List Char) (name_end : Nat),
      extension_scan name exts rext name_end =
        match (exts.filter (fun e => decide (e.length ≤ MAX_FILE_EXT))).find?
            (ends_with_extension name) with
        | some e => ('.' :: e, name.length - (e.length + 1), true)
        | none =>
          (if rext.isEmpty then
              (match (exts.filter (fun e => decide (e.length ≤ MAX_FILE_EXT))).head? with
                | some e => '.' :: e
                | none => [])
            else rext, name_end, false) := by
  induction exts with
  | nil =>
    intro rext name_end
    cases rext <;> rfl
  | cons mext rest ih =>
    intro rext name_end
    simp only [extension_scan, is_match_eq]
    by_cases hlen : mext.length > MAX_FILE_EXT
    · have hle : ¬ mext.length ≤ MAX_FILE_EXT := by omega
      simp only [hlen, if_true, List.filter_cons, hle, decide_False]
      exact ih rext name_end
    · have hle : mext.length ≤ MAX_FILE_EXT := by omega
      simp only [hlen, if_false, List.filter_cons, hle, decide_True, if_true, List.find?_cons,
        List.head?_cons]
      cases hm : ends_with_extension name mext with
      | true =>
        simp only [if_true, Bool.or_true, Nat.sub_sub]
      | false =>
        simp only [Bool.or_false, Bool.false_eq_true, if_false]
        rw [ih]
        cases hf : (rest.filter (fun e => decide (e.length ≤ MAX_FILE_EXT))).find?
            (ends_with_extension name) with
        | some e => rfl
        | none =>
          cases rext with
          | nil => rfl
          | cons c cs => rfl

theorem check_file_extension_table (lines : List (List Char)) (name type : List Char) :
    check_file_extension (some lines) (some name) (some type) =
      .ok (extension_spec (table_extensions type lines) name) := by
  unfold check_file_extension
  simp only []
  rw [check_file_extension_lines_eq, extension_scan_eq]
  unfold extension_spec
  simp only []
  cases hf : ((table_extensions type lines).filter
      (fun e => decide (e.length ≤ MAX_FILE_EXT))).find? (ends_with_extension name) with
  | some e => rfl
  | none =>
    cases hh : ((table_extensions type lines).filter
        (fun e => decide (e.length ≤ MAX_FILE_EXT))).head? with
    | some e => rfl
    | none => rfl

theorem get_next_word_shorter (cur word rest : List Char)
    (h : get_next_word cur = some (word, rest)) : rest.length < cur.length := by
  unfold get_next_word at h
  simp only [] at h
  cases hs : cur.dropWhile isspace with
  | nil => rw [hs] at h; exact absurd h (by simp)
  | cons c t =>
    rw [hs] at h
    simp only [Option.some.injEq, Prod.mk.injEq] at h
    have hc : isspace c = false := by
      have := List.head?_dropWhile_not isspace cur
      rw [hs] at this
      simpa using this
    have h1 : rest = t.dropWhile (fun ch => !isspace ch) := by
      rw [← h.2]
      rw [List.dropWhile_cons_of_pos (by simp [hc])]
    have h2 : rest.length ≤ t.length := by
      rw [h1]
      exact (List.dropWhile_sublist _).length_le
    have h3 : (c :: t).length ≤ cur.length := by
      rw [← hs]
      exact (List.dropWhile_sublist _).length_le
    simp only [List.length_cons] at h3
    omega

theorem line_words_fuel (fuel : Nat) :
    ∀ (cur : List Char), cur.length < fuel →
      line_words fuel cur = line_words (cur.length + 1) cur := by
  induction fuel using Nat.strong_induction_on with
  | _ fuel ih =>
    intro cur hlt
    cases fuel with
    | zero => omega
    | succ k =>
      simp only [line_words]
      cases hg : get_next_word cur with
      | none => rfl
      | some p =>
        obtain ⟨word, rest⟩ := p
        have hsh := get_next_word_shorter cur word rest hg
        simp only []
        rw [ih k (by omega) rest (by omega)]
        obtain ⟨j, hj⟩ : ∃ j, cur.length = j + 1 := ⟨cur.length - 1, by omega⟩
        rw [hj]
        rw [ih (j + 1) (by omega) rest (by omega)]


/-- C11 (amended): with the ordered list of extensions that the MIME table maps
the type to, `check_file_extension` returns `extension_spec` of that list: among
the listed extensions of at most `MAX_FILE_EXT` characters, the first `e` such
that the name has at least one character before a final `.` followed by `e`
(compared case-insensitively) gives the extension `.` followed by `e` and the
name without that suffix; without such an `e` the whole name is kept and the
extension is `.` followed by the first listed extension of at most
`MAX_FILE_EXT` characters. With no type, no table or no listed extension the
name is kept whole and the extension is empty. With `text/plain` mapped to
`txt asc`, `report.TXT` gives base `report` and `report` gives base `report`,
both with extension `.txt`. -/
theorem check_file_extension_derivation (mime : Option (List (List Char)))
    (lines : List (List Char)) (name type : List Char) :
    check_file_extension (some lines) (some name) (some type) =
      .ok (extension_spec (table_extensions type lines) name) ∧
    check_file_extension mime (some name) none = .ok ([], name.length) ∧
    check_file_extension none (some name) (some type) = .ok ([], name.length) ∧
    (table_extensions type lines = [] →
      check_file_extension (some lines) (some name) (some type) = .ok ([], name.length)) ∧
    (∀ (cur : List Char) (fuel : Nat), cur.length < fuel →
      line_words fuel cur = line_words (cur.length + 1) cur) ∧
    table_extensions "text/plain".toList mime_text_plain = ["txt".toList, "asc".toList] ∧
    check_file_extension (some mime_text_plain) (some "report.TXT".toList)
        (some "text/plain".toList) = .ok (".txt".toList, 6) ∧
    "report.TXT".toList.take 6 = "report".toList ∧
    check_file_extension (some mime_text_plain) (some "report".toList)
        (some "text/plain".toList) = .ok (".txt".toList, 6) := by
  refine ⟨check_file_extension_table lines name type, ?_, rfl, ?_,
    fun cur fuel h => line_words_fuel fuel cur h, by decide, rfl, by decide, rfl⟩
  · cases mime <;> rfl
  · intro h
    rw [check_file_extension_table, h]
    rfl

theorem check_file_extension_derivation_witness :
    check_file_extension (some mime_text_plain) (some "report".toList)
        (some "image/png".toList) = .ok ([], "report".toList.length) ∧
    line_words 100 "txt asc\n".toList =
      line_words ("txt asc\n".toList.length + 1) "txt asc\n".toList :=
  ⟨(check_file_extension_derivation none mime_text_plain "report".toList
      "image/png".toList).2.2.2.1 (by decide),
   (check_file_extension_derivation none mime_text_plain "report".toList
      "image/png".toList).2.2.2.2.1 "txt asc\n".toList 100 (by decide)⟩

/-- C11 as stated fails in two places. The name `.txt` ends with `.` followed by the
listed extension `txt`, yet nothing is stripped: the code demands a character
before the dot. And an extension of more than `MAX_FILE_EXT` characters is
skipped, so the extension appended to `report` is not the first listed one. -/
theorem check_file_extension_not_as_claimed :
    table_extensions "text/plain".toList mime_text_plain = ["txt".toList, "asc".toList] ∧
    extension_as_claimed ["txt".toList, "asc".toList] ".txt".toList = (".txt".toList, 0) ∧
    check_file_extension (some mime_text_plain) (some ".txt".toList)
        (some "text/plain".toList) = .ok (".txt".toList, 4) ∧
    table_extensions "x/y".toList mime_long_extension =
      ["abcdefghijklmnopq".toList, "txt".toList] ∧
    extension_as_claimed ["abcdefghijklmnopq".toList, "txt".toList] "report".toList =
      (".abcdefghijklmnopq".toList, 6) ∧
    check_file_extension (some mime_long_extension) (some "report".toList)
        (some "x/y".toList) = .ok (".txt".toList, 6) ∧
    check_file_extension (some mime_text_plain) (some ".txt".toList)
        (some "text/plain".toList) ≠
      .ok (extension_as_claimed (table_extensions "text/plain".toList mime_text_plain)
        ".txt".toList) ∧
    check_file_extension (some mime_long_extension) (some "report".toList)
        (some "x/y".toList) ≠
      .ok (extension_as_claimed (table_extensions "x/y".toList mime_long_extension)
        "report".toList) := by
  have h1 : check_file_extension (some mime_text_plain) (some ".txt".toList)
      (some "text/plain".toList) = .ok (".txt".toList, 4) := rfl
  have h2 : check_file_extension (some mime_long_extension) (some "report".toList)
      (some "x/y".toList) = .ok (".txt".toList, 6) := rfl
  refine ⟨by decide, by decide, h1, by decide, by decide, h2, ?_, ?_⟩
  · rw [h1]
    intro h
    exact absurd (Except.ok.inj h) (by decide)
  · rw [h2]
    intro h
    exact absurd (Except.ok.inj h) (by decide)

/-! ### Window uniqueness -/

theorem same_windows_refl (w : World) : same_windows w w := ⟨rfl, fun _ => rfl⟩

theorem same_windows_trans {w w1 w2 : World} (h1 : same_windows w w1)
    (h2 : same_windows w1 w2) : same_windows w w2 :=
  ⟨h2.1.trans h1.1, fun i => (h2.2 i).trans (h1.2 i)⟩

theorem getD_set_window (l : List xropen_client) (c i : Nat) (cl : xropen_client)
    (h : cl.window = (l.getD c default).window) :
    ((l.set c cl).getD i default).window = (l.getD i default).window := by
  induction l generalizing c i with
  | nil => simp
  | cons a t ih =>
    cases c with
    | zero =>
      cases i with
      | zero => simpa using h
      | succ k => simp
    | succ d =>
      cases i with
      | zero => simp
      | succ k =>
        simp only [List.set_cons_succ, List.getD_cons_succ]
        exact ih d k (by simpa using h)

theorem same_windows_set_client (w : World) (c : Nat) (cl : xropen_client)
    (h : cl.window = (w.client c).window) : same_windows w (w.set_client c cl) :=
  ⟨by simp [World.set_client], fun i => getD_set_window w.all_clients c i cl h⟩

theorem close_client_loop_some (fuel : Nat) (arr arr1 : List xropen_client) (c n : Nat)
    (h : close_client_loop fuel arr c n = some arr1) : arr1 = arr ∧ ¬ c < n := by
  by_cases hc : c < n
  · rw [close_client_loop_stuck fuel arr c n hc] at h
    exact absurd h (by simp)
  · cases fuel with
    | zero => exact absurd h (by simp [close_client_loop])
    | succ k =>
      rw [close_client_loop_done k arr c n hc] at h
      exact ⟨(Option.some.inj h).symm, hc⟩

theorem close_client_ok (fuel : Nat) (w w1 : World) (c : Nat)
    (h : close_client fuel w c = .ok w1) (hc : c < w.all_clients_size) :
    same_windows w w1 ∧ w1.all_clients_size + 1 = w.all_clients_size := by
  have h0 : w.all_clients_size ≠ 0 := by omega
  unfold close_client at h
  simp only [h0, if_false] at h
  cases hl : close_client_loop fuel w.all_clients c (w.all_clients_size - 1) with
  | none => rw [hl] at h; exact absurd h (by simp)
  | some arr =>
    rw [hl] at h
    obtain ⟨harr, _⟩ := close_client_loop_some fuel _ _ c _ hl
    have hw := Except.ok.inj h
    subst hw
    subst harr
    exact ⟨⟨rfl, fun _ => rfl⟩, by simp only []; omega⟩

theorem kill_client_ok (fuel : Nat) (atom : ropen_atoms) (w w1 : World) (c : Nat)
    (msg : Option String) (h : kill_client fuel atom w c msg = .ok w1)
    (hc : c < w.all_clients_size) :
    same_windows w w1 ∧ w1.all_clients_size + 1 = w.all_clients_size := by
  unfold kill_client at h
  have := close_client_ok fuel _ w1 c h (by simpa [kill_non_client] using hc)
  exact ⟨⟨this.1.1, fun i => this.1.2 i⟩, this.2⟩

theorem find_client_loop_some (w : World) (window : Nat) (k : Nat) :
    ∀ (i c : Nat), find_client_loop w window k i = some c →
      i ≤ c ∧ c < i + k ∧ (w.client c).window = window ∧
      ∀ l, i ≤ l → l < c → (w.client l).window ≠ window := by
  induction k with
  | zero => intro i c h; exact absurd h (by simp [find_client_loop])
  | succ n ih =>
    intro i c h
    unfold find_client_loop at h
    by_cases hw : (w.client i).window = window
    · simp only [hw, if_true, Option.some.injEq] at h
      subst h
      exact ⟨le_refl _, by omega, hw, fun l h1 h2 => by omega⟩
    · simp only [hw, if_false] at h
      obtain ⟨h1, h2, h3, h4⟩ := ih (i + 1) c h
      refine ⟨by omega, by omega, h3, fun l hl1 hl2 => ?_⟩
      by_cases hli : l = i
      · rw [hli]; exact hw
      · exact h4 l (by omega) hl2

theorem find_client_loop_none (w : World) (window : Nat) (k : Nat) :
    ∀ (i : Nat), find_client_loop w window k i = none →
      ∀ l, i ≤ l → l < i + k → (w.client l).window ≠ window := by
  induction k with
  | zero => intro i _ l h1 h2; omega
  | succ n ih =>
    intro i h l h1 h2
    unfold find_client_loop at h
    by_cases hw : (w.client i).window = window
    · simp [hw] at h
    · simp only [hw, if_false] at h
      by_cases hli : l = i
      · rw [hli]; exact hw
      · exact ih (i + 1) h l (by omega) (by omega)

theorem find_client_some (w : World) (window c : Nat) (h : find_client w window = some c) :
    c < w.all_clients_size ∧ (w.client c).window = window := by
  obtain ⟨_, h2, h3, _⟩ := find_client_loop_some w window _ 0 c h
  exact ⟨by omega, h3⟩

theorem find_client_none (w : World) (window : Nat) (h : find_client w window = none) :
    ∀ i, i < w.all_clients_size → (w.client i).window ≠ window :=
  fun i hi => find_client_loop_none w window _ 0 h i (Nat.zero_le i) (by omega)


theorem same_windows_update (w W : World) (c : Nat) (cl : xropen_client)
    (hW : W.all_clients = w.all_clients) (hcl : cl.window = (w.client c).window) :
    same_windows w (W.set_client c cl) := by
  have h := same_windows_set_client W c cl (by rw [hcl]; simp [World.client, hW])
  exact ⟨by rw [h.1, hW], fun i => by rw [h.2 i]; simp [World.client, hW]⟩

theorem open_file_ok (fuel : Nat) (atom : ropen_atoms) (env : Env) (w w1 : World) (c : Nat)
    (h : open_file fuel atom env w c = .ok w1) (hc : c < w.all_clients_size) :
    same_windows w w1 ∧ w1.all_clients_size + 1 = w.all_clients_size := by
  unfold open_file at h
  cases hf : (w.client c).file with
  | none => simp [hf] at h
  | some f =>
    simp only [hf] at h
    have hs : same_windows w
        (({ w with launches := w.launches ++
          [((w.client c).file_name, (w.client c).file_type)] } : World).set_client c
          { w.client c with file := none }) :=
      same_windows_set_client
        ({ w with launches := w.launches ++
          [((w.client c).file_name, (w.client c).file_type)] } : World) c _ rfl
    split at h
    · have := kill_client_ok fuel atom _ w1 c _ h (by simpa [World.set_client] using hc)
      exact ⟨same_windows_trans hs this.1, by simpa [World.set_client] using this.2⟩
    · split at h
      · have := kill_client_ok fuel atom _ w1 c _ h (by simpa [World.set_client] using hc)
        exact ⟨same_windows_trans hs this.1, by simpa [World.set_client] using this.2⟩
      · split at h
        · have := kill_client_ok fuel atom _ w1 c _ h (by simpa [World.set_client] using hc)
          exact ⟨same_windows_trans hs this.1, by simpa [World.set_client] using this.2⟩
        · have := close_client_ok fuel _ w1 c h (by simpa [World.set_client] using hc)
          exact ⟨same_windows_trans hs this.1, by simpa [World.set_client] using this.2⟩

theorem handle_property_change_ok (fuel : Nat) (atom : ropen_atoms) (env : Env) (w w1 : World)
    (ev : xcb_property_notify_event_t)
    (h : handle_property_change fuel atom env w ev = .ok w1) :
    same_windows w w1 ∧
      (w1.all_clients_size = w.all_clients_size ∨
        w1.all_clients_size + 1 = w.all_clients_size) := by
  unfold handle_property_change at h
  split at h
  · rw [← Except.ok.inj h]
    exact ⟨same_windows_refl w, Or.inl rfl⟩
  · cases hfind : find_client w ev.window with
    | none =>
      simp only [hfind] at h
      rw [← Except.ok.inj h]
      exact ⟨same_windows_refl w, Or.inl rfl⟩
    | some c =>
      simp only [hfind] at h
      obtain ⟨hc, _⟩ := find_client_some w ev.window c hfind
      split at h
      · have := kill_client_ok fuel atom w w1 c _ h hc
        exact ⟨this.1, Or.inr this.2⟩
      · cases hprop : env.get_property (w.client c).window atom.data atom.data
            ((((if off_t_wrap ((w.client c).file_size - (w.client c).file_pos) >
              (MAX_DATA_SIZE : Int) then (MAX_DATA_SIZE : Int)
              else off_t_wrap ((w.client c).file_size - (w.client c).file_pos)) + 3) /
                4).toNat) with
        | none =>
          simp only [hprop] at h
          have := kill_client_ok fuel atom w w1 c _ h hc
          exact ⟨this.1, Or.inr this.2⟩
        | some prop =>
          simp only [hprop] at h
          split at h
          · have := kill_client_ok fuel atom w w1 c _ h hc
            exact ⟨this.1, Or.inr this.2⟩
          · cases hfile : (w.client c).file with
            | none => simp [hfile] at h
            | some f =>
              simp only [hfile] at h
              split at h
              · have := kill_client_ok fuel atom _ w1 c _ h hc
                exact ⟨⟨this.1.1, fun i => this.1.2 i⟩, Or.inr this.2⟩
              · split at h
                · have := open_file_ok fuel atom env _ w1 c h
                    (by simpa [World.set_client] using hc)
                  refine ⟨same_windows_trans ?_ this.1,
                    Or.inr (by simpa [World.set_client] using this.2)⟩
                  exact same_windows_update w _ c _ rfl rfl
                · rw [← Except.ok.inj h]
                  exact ⟨same_windows_update w _ c _ rfl rfl, Or.inl rfl⟩

theorem handle_destroy_ok (fuel : Nat) (w w1 : World) (window : Nat)
    (h : handle_destroy fuel w window = .ok w1) :
    same_windows w w1 ∧
      (w1.all_clients_size = w.all_clients_size ∨
        w1.all_clients_size + 1 = w.all_clients_size) := by
  unfold handle_destroy at h
  cases hfind : find_client w window with
  | none =>
    simp only [hfind] at h
    rw [← Except.ok.inj h]
    exact ⟨same_windows_refl w, Or.inl rfl⟩
  | some c =>
    simp only [hfind] at h
    have := close_client_ok fuel w w1 c h (find_client_some w window c hfind).1
    exact ⟨this.1, Or.inr this.2⟩


theorem client_set_client_ne (w : World) (c i : Nat) (cl : xropen_client) (h : i ≠ c) :
    (w.set_client c cl).client i = w.client i := by
  simp [World.set_client, World.client, List.getD_eq_getElem?_getD,
    List.getElem?_set_ne (Ne.symm h)]

theorem open_temp_file_ok (fuel : Nat) (atom : ropen_atoms) (env : Env) (w w1 : World)
    (c : Nat) (name type : Option (List Char))
    (h : open_temp_file fuel atom env w c name type = .ok w1) (hc : c < w.all_clients_size) :
    same_windows w w1 ∧
      (w1.all_clients_size = w.all_clients_size ∨
        w1.all_clients_size + 1 = w.all_clients_size) := by
  cases name with
  | none => simp [open_temp_file, check_file_extension] at h
  | some nm =>
    rw [open_temp_file_some] at h
    cases hl : open_temp_file_loop w.fs (temp_file_path env nm type) MAX_FILE_INDEX 0 with
    | none =>
      simp only [hl] at h
      have := kill_client_ok fuel atom w w1 c _ h hc
      exact ⟨this.1, Or.inr this.2⟩
    | some r =>
      obtain ⟨fs1, fd, i⟩ := r
      simp only [hl] at h
      split at h
      · rw [← Except.ok.inj h]
        exact ⟨same_windows_update w _ c _ rfl rfl, Or.inl rfl⟩
      · have := kill_client_ok fuel atom _ w1 c _ h (by simpa [World.set_client] using hc)
        refine ⟨same_windows_trans ?_ this.1,
          Or.inr (by simpa [World.set_client] using this.2)⟩
        exact same_windows_update w _ c _ rfl rfl

theorem start_client_ok (fuel : Nat) (atom : ropen_atoms) (env : Env) (w w1 : World)
    (window : Nat) (h : start_client fuel atom env w window = .ok w1)
    (hsz : w.all_clients_size ≤ MAX_CLIENTS) (hlen : w.all_clients.length = MAX_CLIENTS) :
    (same_windows w w1 ∧ w1.all_clients_size = w.all_clients_size) ∨
    (w.all_clients_size < MAX_CLIENTS ∧
      w1.all_clients.length = w.all_clients.length ∧
      (∀ i, i ≠ w.all_clients_size → (w1.client i).window = (w.client i).window) ∧
      (w1.client w.all_clients_size).window = window ∧
      (w1.all_clients_size = w.all_clients_size + 1 ∨
        w1.all_clients_size = w.all_clients_size)) := by
  unfold start_client at h
  split at h
  · rw [← Except.ok.inj h]
    exact Or.inl ⟨⟨rfl, fun _ => rfl⟩, rfl⟩
  · rename_i hnf
    have hlt : w.all_clients_size < MAX_CLIENTS := by omega
    have hnw : w.all_clients_size ≠ 4294967295 := by unfold MAX_CLIENTS at hlt; omega
    have hcl : w.all_clients_size < w.all_clients.length := by omega
    simp only [hnw, if_false] at h
    have hA : ∀ (W : World), W = (({ w with all_clients_size := w.all_clients_size + 1 } :
        World).set_client w.all_clients_size
          { w.client w.all_clients_size with window := window }) →
        W.all_clients.length = w.all_clients.length ∧
        (∀ i, i ≠ w.all_clients_size → (W.client i).window = (w.client i).window) ∧
        (W.client w.all_clients_size).window = window ∧
        W.all_clients_size = w.all_clients_size + 1 := by
      intro W hW
      subst hW
      refine ⟨by simp [World.set_client], fun i hi => ?_, ?_, rfl⟩
      · rw [client_set_client_ne _ _ _ _ hi]
        rfl
      · rw [client_set_client]
        exact hcl
    obtain ⟨a1, a2, a3, a4⟩ := hA _ rfl
    right
    cases hchk : start_client_checks
        (env.get_property window atom.file_name XCB_ATOM_STRING FILENAME_MAX)
        (env.get_property window atom.content_type XCB_ATOM_STRING FILENAME_MAX)
        (env.get_property window atom.size XCB_ATOM_INTEGER 2) with
    | error e => simp [hchk] at h
    | ok b =>
      cases b with
      | false =>
        simp only [hchk] at h
        rw [← Except.ok.inj h]
        exact ⟨hlt, a1, a2, a3, Or.inl a4⟩
      | true =>
        simp only [hchk] at h
        split at h
        · exact absurd h (by simp)
        · rename_i w2 hopen
          have hs := open_temp_file_ok fuel atom env _ w2 _ _ _ hopen
            (by show w.all_clients_size < w.all_clients_size + 1; omega)
          have hfin : same_windows w2 w1 := by
            rw [← Except.ok.inj h]
            exact same_windows_update w2 _ _ _ rfl rfl
          have hsize : w1.all_clients_size = w2.all_clients_size := by
            rw [← Except.ok.inj h]
            rfl
          refine ⟨hlt, (hfin.1.trans hs.1.1).trans a1,
            fun i hi => ((hfin.2 i).trans (hs.1.2 i)).trans (a2 i hi),
            ((hfin.2 _).trans (hs.1.2 _)).trans a3, ?_⟩
          rw [hsize]
          rcases hs.2 with h2 | h2
          · left; exact h2.trans a4
          · right
            have h3 : w2.all_clients_size + 1 = w.all_clients_size + 1 := h2.trans a4
            omega


theorem unique_windows_shrink (w w1 : World) (hs : same_windows w w1)
    (hle : w1.all_clients_size ≤ w.all_clients_size) (hu : unique_windows w) :
    unique_windows w1 := by
  intro i j hi hj hij
  rw [hs.2 i, hs.2 j] at hij
  exact hu i j (by omega) (by omega) hij

theorem handle_event_invariant (fuel : Nat) (atom : ropen_atoms) (w w1 : World) (e : Event)
    (hlen : w.all_clients.length = MAX_CLIENTS) (hsz : w.all_clients_size ≤ MAX_CLIENTS)
    (hu : unique_windows w)
    (hfresh : (match e with
      | .announcement _ window => (find_client w window).isNone
      | _ => true) = true)
    (h : handle_event fuel atom w e = .ok w1) :
    w1.all_clients.length = MAX_CLIENTS ∧ w1.all_clients_size ≤ MAX_CLIENTS ∧
      unique_windows w1 := by
  cases e with
  | property_change env ev =>
    obtain ⟨hs, hsize⟩ := handle_property_change_ok fuel atom env w w1 ev h
    exact ⟨hs.1.trans hlen, by omega, unique_windows_shrink w w1 hs (by omega) hu⟩
  | destroy window =>
    obtain ⟨hs, hsize⟩ := handle_destroy_ok fuel w w1 window h
    exact ⟨hs.1.trans hlen, by omega, unique_windows_shrink w w1 hs (by omega) hu⟩
  | announcement env window =>
    have hnone : find_client w window = none := by
      simpa [Option.isNone_iff_eq_none] using hfresh
    have hno := find_client_none w window hnone
    rcases start_client_ok fuel atom env w w1 window h hsz hlen with ⟨hs, hsize⟩ | hnew
    · exact ⟨hs.1.trans hlen, by omega, unique_windows_shrink w w1 hs (by omega) hu⟩
    · obtain ⟨hlt, h1, h2, h3, h4⟩ := hnew
      refine ⟨h1.trans hlen, by omega, ?_⟩
      intro i j hi hj hij
      by_cases hic : i = w.all_clients_size
      · by_cases hjc : j = w.all_clients_size
        · rw [hic, hjc]
        · rw [hic, h3, h2 j hjc] at hij
          exact absurd hij.symm (hno j (by omega))
      · by_cases hjc : j = w.all_clients_size
        · rw [hjc, h3, h2 i hic] at hij
          exact absurd hij (hno i (by omega))
        · rw [h2 i hic, h2 j hjc] at hij
          exact hu i j (by omega) (by omega) hij

theorem run_events_invariant (fuel : Nat) (atom : ropen_atoms) (events : List Event) :
    ∀ (w w1 : World), w.all_clients.length = MAX_CLIENTS →
      w.all_clients_size ≤ MAX_CLIENTS → unique_windows w →
      fresh_announcements fuel atom w events = true →
      run_events fuel atom w events = .ok w1 →
      w1.all_clients.length = MAX_CLIENTS ∧ w1.all_clients_size ≤ MAX_CLIENTS ∧
        unique_windows w1 := by
  induction events with
  | nil =>
    intro w w1 hlen hsz hu _ hrun
    rw [← Except.ok.inj hrun]
    exact ⟨hlen, hsz, hu⟩
  | cons e es ih =>
    intro w w1 hlen hsz hu hfresh hrun
    simp only [fresh_announcements, Bool.and_eq_true] at hfresh
    simp only [run_events] at hrun
    cases hstep : handle_event fuel atom w e with
    | error err => simp [hstep] at hrun
    | ok w2 =>
      simp only [hstep] at hrun hfresh
      obtain ⟨g1, g2, g3⟩ := handle_event_invariant fuel atom w w2 e hlen hsz hu hfresh.1 hstep
      exact ih w2 w1 g1 g2 g3 hfresh.2 hrun

theorem nodup_of_unique_windows (w : World) (hlen : w.all_clients_size ≤ w.all_clients.length)
    (hu : unique_windows w) : (w.active.map (fun cl => cl.window)).Nodup := by
  rw [List.nodup_iff_getElem?_ne_getElem?]
  intro i j hij hj
  have hjs : j < w.all_clients_size := by
    simp only [World.active, List.length_map, List.length_take] at hj
    omega
  have hget : ∀ k, k < w.all_clients_size →
      (w.active.map (fun cl => cl.window))[k]? = some (w.client k).window := by
    intro k hk
    have hk2 : k < w.all_clients.length := by omega
    simp [World.active, World.client, List.getElem?_take, hk, List.getD_eq_getElem?_getD,
      List.getElem?_eq_getElem hk2]
  rw [hget i (by omega), hget j hjs]
  intro heq
  have := hu i j (by omega) hjs (Option.some.inj heq)
  omega

theorem find_client_of_unique (w : World) (hu : unique_windows w) (i : Nat)
    (hi : i < w.all_clients_size) : find_client w (w.client i).window = some i := by
  cases hf : find_client w (w.client i).window with
  | none => exact absurd rfl (find_client_none w _ hf i hi)
  | some c =>
    obtain ⟨hc, hw⟩ := find_client_some w _ c hf
    rw [hu c i hc hi hw]

/-- C13 (amended): in every state reached from an empty table by announcements,
property notifications and destroy notifications in which every announcement
names a window that has no active slot when it is handled, no two active slots
hold the same window, and `find_client` returns for the window of every active
slot that very slot. -/
theorem window_unique_of_fresh_announcements (fuel : Nat) (atom : ropen_atoms)
    (w w1 : World) (events : List Event)
    (hempty : w.all_clients_size = 0) (hlen : w.all_clients.length = MAX_CLIENTS)
    (hfresh : fresh_announcements fuel atom w events = true)
    (hrun : run_events fuel atom w events = .ok w1) :
    (w1.active.map (fun cl => cl.window)).Nodup ∧ unique_windows w1 ∧
    ∀ i, i < w1.all_clients_size → find_client w1 (w1.client i).window = some i := by
  obtain ⟨g1, g2, g3⟩ := run_events_invariant fuel atom events w w1 hlen
    (by rw [hempty]; exact Nat.zero_le _)
    (fun i j hi _ _ => by rw [hempty] at hi; exact absurd hi (Nat.not_lt_zero i))
    hfresh hrun
  exact ⟨nodup_of_unique_windows w1 (by omega) g3, g3,
    fun i hi => find_client_of_unique w1 g3 i hi⟩

theorem window_unique_of_fresh_announcements_witness :
    ∃ w1, run_events 1 atom0 w_empty events_two_windows = .ok w1 ∧
      w1.active.map (fun cl => cl.window) = [77, 78] ∧
      (w1.active.map (fun cl => cl.window)).Nodup ∧ unique_windows w1 ∧
      ∀ i, i < w1.all_clients_size → find_client w1 (w1.client i).window = some i :=
  ⟨_, rfl, by decide,
    window_unique_of_fresh_announcements 1 atom0 w_empty _ events_two_windows rfl
      (by decide) (by decide) rfl⟩

/-- C13 as stated fails: `start_client` makes no lookup, so a second announcement
that names window 77 while it has an active slot takes a second slot with that
window; `find_client` then returns the first of the two. -/
theorem second_announcement_duplicates_window :
    ∃ w1, run_events 1 atom0 w_empty events_same_window = .ok w1 ∧
      w1.all_clients_size = 2 ∧
      w1.active.map (fun cl => cl.window) = [77, 77] ∧
      ¬ (w1.active.map (fun cl => cl.window)).Nodup ∧
      find_client w1 77 = some 0 :=
  ⟨_, rfl, by decide, by decide, by decide, by decide⟩

end Xropen
